import Mathlib

/-!
Verification of the three hook handlers of agent-spaces-v2:
  - variant A: hooks/log-all-bash.py      (logs every Bash tool call)
  - variant B: hooks/log-failed-bash.py   (logs failed Bash commands)
  - variant C: hooks/log-build-loop.py    (traces all lifecycle events)

The payloads are JSON values; we model them with a mutual inductive `J`
(objects are ordered key/value lists, as produced by parsing; Python dicts
cannot hold duplicate keys, and the model keeps whatever list it is given).
Numbers are modelled as integers (the handlers never compute with numbers,
and no claim involves floats).  `dumpsC` mirrors `json.dumps` with its
default separators `", "` and `": "`; string escaping covers the common
escapes (quote, backslash, newline, tab, carriage return); other characters
are passed through unchanged, which keeps the model internally consistent.
`parseValue` is a fuel-based recursive-descent JSON reader standing for
`json.loads` (no \u escapes or float syntax; unused by the handlers).
-/

mutual

inductive J where
  | null : J
  | bool (b : Bool) : J
  | num (n : Int) : J
  | str (s : String) : J
  | arr (xs : JList) : J
  | obj (ms : JMembers) : J

inductive JList where
  | nil : JList
  | cons (v : J) (tl : JList) : JList

inductive JMembers where
  | nil : JMembers
  | cons (k : String) (v : J) (tl : JMembers) : JMembers

end

/-- Lookup of a key in an object's member list (`dict.get`); the events the
handlers receive come from `json.loads`, so keys are unique. -/
def mfind : JMembers → String → Option J
  | .nil, _ => none
  | .cons k v tl, key => if k = key then some v else mfind tl key

/-- Python `dict.get(key, default)`. -/
def mfindD (ms : JMembers) (key : String) (d : J) : J :=
  (mfind ms key).getD d

/-- The keys of an object, in order. -/
def keysOf : JMembers → List String
  | .nil => []
  | .cons k _ tl => k :: keysOf tl

/-- Python `==` against a string literal: true exactly for an equal string. -/
def isStrVal (v : J) (s : String) : Bool :=
  match v with
  | .str t => t = s
  | _ => false

/-- Python truthiness of a JSON value. -/
def pyTruthy : J → Bool
  | .null => false
  | .bool b => b
  | .num n => decide (n ≠ 0)
  | .str s => decide (s ≠ "")
  | .arr .nil => false
  | .arr (.cons _ _) => true
  | .obj .nil => false
  | .obj (.cons _ _ _) => true

def takeJList : Nat → JList → JList
  | 0, _ => .nil
  | _, .nil => .nil
  | n + 1, .cons v tl => .cons v (takeJList n tl)

/-! ## Decimal printing of numbers -/

def digitChar (d : Nat) : Char :=
  if d = 0 then '0' else if d = 1 then '1' else if d = 2 then '2'
  else if d = 3 then '3' else if d = 4 then '4' else if d = 5 then '5'
  else if d = 6 then '6' else if d = 7 then '7' else if d = 8 then '8'
  else '9'

def isDigitChar (c : Char) : Bool :=
  c == '0' || c == '1' || c == '2' || c == '3' || c == '4' ||
  c == '5' || c == '6' || c == '7' || c == '8' || c == '9'

/-- Numeric value of a digit character. -/
def dval (c : Char) : Nat := c.toNat - 48

def natDigitsAux : Nat → Nat → List Char → List Char
  | 0, _, acc => acc
  | fuel + 1, n, acc =>
    if n < 10 then digitChar n :: acc
    else natDigitsAux fuel (n / 10) (digitChar (n % 10) :: acc)

/-- Decimal digits of a natural number, most significant first. -/
def natD (n : Nat) : List Char := natDigitsAux (n + 1) n []

/-- Decimal form of an integer, as `json.dumps` and `str` print it. -/
def intChars (n : Int) : List Char :=
  if n < 0 then '-' :: natD n.natAbs else natD n.natAbs

/-- Value of a list of digit characters (`int` applied to a digit string). -/
def valOf (l : List Char) : Nat :=
  l.foldl (fun a c => a * 10 + dval c) 0

/-- Split a maximal leading run of digits from a character list. -/
def splitDigits : List Char → List Char × List Char
  | [] => ([], [])
  | c :: cs =>
    if isDigitChar c then
      (c :: (splitDigits cs).1, (splitDigits cs).2)
    else ([], c :: cs)

theorem digitChar_facts (d : Nat) (h : d < 10) :
    isDigitChar (digitChar d) = true ∧ dval (digitChar d) = d := by
  interval_cases d <;> exact ⟨by decide, by decide⟩

theorem digit10 (c : Char) (h : isDigitChar c = true) :
    c = '0' ∨ c = '1' ∨ c = '2' ∨ c = '3' ∨ c = '4' ∨
    c = '5' ∨ c = '6' ∨ c = '7' ∨ c = '8' ∨ c = '9' := by
  have h2 := h
  simp only [isDigitChar, Bool.or_eq_true, beq_iff_eq] at h2
  tauto

theorem natDigitsAux_append (fuel : Nat) :
    ∀ n acc, natDigitsAux fuel n acc = natDigitsAux fuel n [] ++ acc := by
  induction fuel with
  | zero => intro n acc; rfl
  | succ fuel ih =>
    intro n acc
    by_cases h : n < 10
    · simp [natDigitsAux, h]
    · simp only [natDigitsAux, h, if_false]
      rw [ih (n / 10) (digitChar (n % 10) :: acc),
        ih (n / 10) [digitChar (n % 10)]]
      simp

theorem natDigitsAux_irrel (f1 : Nat) :
    ∀ f2 n acc, n < f1 → n < f2 →
      natDigitsAux f1 n acc = natDigitsAux f2 n acc := by
  induction f1 with
  | zero => intro f2 n acc h1; omega
  | succ f1 ih =>
    intro f2 n acc h1 h2
    match f2, h2 with
    | f2 + 1, h2 =>
      by_cases h : n < 10
      · simp [natDigitsAux, h]
      · simp only [natDigitsAux, h, if_false]
        exact ih f2 (n / 10) _ (by omega) (by omega)

theorem natD_eq (n : Nat) :
    natD n = if n < 10 then [digitChar n] else natD (n / 10) ++ [digitChar (n % 10)] := by
  by_cases h : n < 10
  · simp [natD, natDigitsAux, h]
  · simp only [natD, natDigitsAux, h, if_false]
    rw [natDigitsAux_irrel n (n / 10 + 1) (n / 10) _ (by omega) (by omega)]
    exact natDigitsAux_append _ _ _

theorem natD_ne_nil (n : Nat) : natD n ≠ [] := by
  rw [natD_eq]
  by_cases h : n < 10 <;> simp [h]

theorem natD_digits (n : Nat) : ∀ c ∈ natD n, isDigitChar c = true := by
  induction n using Nat.strong_induction_on with
  | _ n ih =>
    rw [natD_eq]
    by_cases h : n < 10
    · simp only [h, if_true, List.mem_singleton]
      rintro c rfl
      exact (digitChar_facts n h).1
    · simp only [h, if_false, List.mem_append, List.mem_singleton]
      rintro c (hc | rfl)
      · exact ih (n / 10) (by omega) c hc
      · exact (digitChar_facts (n % 10) (by omega)).1

theorem valOf_natD_aux (n : Nat) :
    ∀ a, List.foldl (fun a c => a * 10 + dval c) a (natD n) =
      a * 10 ^ (natD n).length + n := by
  induction n using Nat.strong_induction_on with
  | _ n ih =>
    intro a
    rw [natD_eq]
    by_cases h : n < 10
    · simp [h, List.foldl, (digitChar_facts n h).2]
    · simp only [h, if_false, List.foldl_append, List.foldl, List.length_append,
        List.length_singleton]
      rw [ih (n / 10) (by omega) a, pow_succ]
      have hd := (digitChar_facts (n % 10) (by omega)).2
      rw [hd]
      have h10 : 0 < 10 ^ (natD (n / 10)).length := Nat.pos_pow_of_pos _ (by omega)
      ring_nf
      omega

theorem valOf_natD (n : Nat) : valOf (natD n) = n := by
  have := valOf_natD_aux n 0
  simpa [valOf] using this

theorem splitDigits_spec (l : List Char) :
    ∀ r, (∀ c ∈ l, isDigitChar c = true) →
      (match r with | [] => True | c :: _ => isDigitChar c = false) →
      splitDigits (l ++ r) = (l, r) := by
  induction l with
  | nil =>
    intro r _ hr
    match r with
    | [] => rfl
    | c :: cs => simp [splitDigits, hr]
  | cons c cs ih =>
    intro r hl hr
    have hc : isDigitChar c = true := hl c (by simp)
    have h2 := ih r (fun x hx => hl x (by simp [hx])) hr
    simp only [List.cons_append, splitDigits, List.append_eq, hc, if_true, h2]

theorem splitDigits_inv (l : List Char) :
    ∀ d r, splitDigits l = (d, r) →
      l = d ++ r ∧ (∀ c ∈ d, isDigitChar c = true) ∧
        (match r with | [] => True | c :: _ => isDigitChar c = false) := by
  induction l with
  | nil =>
    intro d r h
    simp only [splitDigits] at h
    injection h with h1 h2
    subst h1; subst h2
    exact ⟨rfl, by simp, trivial⟩
  | cons c cs ih =>
    intro d r h
    by_cases hc : isDigitChar c = true
    · simp only [splitDigits, hc, if_true] at h
      injection h with h1 h2
      subst h1; subst h2
      obtain ⟨he, hd, hr⟩ := ih (splitDigits cs).1 (splitDigits cs).2 rfl
      refine ⟨by rw [List.cons_append, ← he], ?_, hr⟩
      intro x hx
      rcases List.mem_cons.mp hx with rfl | hx
      · exact hc
      · exact hd x hx
    · simp only [splitDigits, hc, if_false] at h
      injection h with h1 h2
      subst h1; subst h2
      exact ⟨rfl, by simp, by simpa using hc⟩

/-! ## String escaping (mirrors `json.dumps` for the common escapes) -/

def escChar (c : Char) : List Char :=
  if c = '"' then ['\\', '"']
  else if c = '\\' then ['\\', '\\']
  else if c = '\n' then ['\\', 'n']
  else if c = '\t' then ['\\', 't']
  else if c = '\r' then ['\\', 'r']
  else [c]

def escChars : List Char → List Char
  | [] => []
  | c :: cs => escChar c ++ escChars cs

def unesc (c : Char) : Option Char :=
  if c = '"' then some '"'
  else if c = '\\' then some '\\'
  else if c = '/' then some '/'
  else if c = 'n' then some '\n'
  else if c = 't' then some '\t'
  else if c = 'r' then some '\r'
  else none

/-! ## The serializer, mirroring `json.dumps` (default separators) -/

mutual

def dumpsC : J → List Char
  | .num n => intChars n
  | .str s => '"' :: (escChars s.data ++ ['"'])
  | .null => 'n' :: 'u' :: 'l' :: 'l' :: []
  | .bool true => 't' :: 'r' :: 'u' :: 'e' :: []
  | .bool false => 'f' :: 'a' :: 'l' :: 's' :: 'e' :: []
  | .arr .nil => ['[', ']']
  | .arr (.cons v vs) => '[' :: (dumpsC v ++ (dumpsLT vs ++ [']']))
  | .obj .nil => ['\x7b', '\x7d']
  | .obj (.cons k v ms) =>
      '\x7b' :: ('"' :: (escChars k.data ++ ('"' :: ':' :: ' ' ::
        (dumpsC v ++ (dumpsMT ms ++ ['\x7d'])))))

def dumpsLT : JList → List Char
  | .nil => []
  | .cons v vs => ',' :: ' ' :: (dumpsC v ++ dumpsLT vs)

def dumpsMT : JMembers → List Char
  | .nil => []
  | .cons k v ms =>
      ',' :: ' ' :: ('"' :: (escChars k.data ++ ('"' :: ':' :: ' ' ::
        (dumpsC v ++ dumpsMT ms))))

end

/-- The serialization `json.dumps` as a string. -/
def dumps (v : J) : String := String.mk (dumpsC v)

/-! ## The reader, standing for `json.loads` -/

def isWs (c : Char) : Bool :=
  c == ' ' || c == '\t' || c == '\n' || c == '\r'

def skipWs : List Char → List Char
  | [] => []
  | c :: cs => if isWs c then skipWs cs else c :: cs

/-- Body of a string literal after the opening quote; returns the decoded
characters and the input following the closing quote. -/
def parseStrBody : List Char → Option (List Char × List Char)
  | [] => none
  | c :: rest =>
    if c = '"' then some ([], rest)
    else if c = '\\' then
      match rest with
      | [] => none
      | c2 :: rest2 =>
        match unesc c2, parseStrBody rest2 with
        | some u, some (s, r) => some (u :: s, r)
        | _, _ => none
    else
      match parseStrBody rest with
      | some (s, r) => some (c :: s, r)
      | none => none

mutual

def parseValue : Nat → List Char → Option (J × List Char)
  | 0, _ => none
  | fuel + 1, cs =>
    match skipWs cs with
    | [] => none
    | c :: rest =>
      if c = 'n' then
        match rest with
        | 'u' :: 'l' :: 'l' :: r => some (.null, r)
        | _ => none
      else if c = 't' then
        match rest with
        | 'r' :: 'u' :: 'e' :: r => some (.bool true, r)
        | _ => none
      else if c = 'f' then
        match rest with
        | 'a' :: 'l' :: 's' :: 'e' :: r => some (.bool false, r)
        | _ => none
      else if c = '"' then
        match parseStrBody rest with
        | some (s, r) => some (.str (String.mk s), r)
        | none => none
      else if c = '[' then
        match skipWs rest with
        | [] => none
        | c2 :: r2 =>
          if c2 = ']' then some (.arr .nil, r2)
          else
            match parseElems fuel (c2 :: r2) with
            | some (vs, r3) => some (.arr vs, r3)
            | none => none
      else if c = '\x7b' then
        match skipWs rest with
        | [] => none
        | c2 :: r2 =>
          if c2 = '\x7d' then some (.obj .nil, r2)
          else
            match parseMembers fuel (c2 :: r2) with
            | some (ms, r3) => some (.obj ms, r3)
            | none => none
      else if c = '-' then
        match splitDigits rest with
        | ([], _) => none
        | (ds, r) => some (.num (-(valOf ds : Int)), r)
      else if isDigitChar c then
        match splitDigits (c :: rest) with
        | ([], _) => none
        | (ds, r) => some (.num ((valOf ds : Nat) : Int), r)
      else none

def parseElems : Nat → List Char → Option (JList × List Char)
  | 0, _ => none
  | fuel + 1, cs =>
    match parseValue fuel cs with
    | none => none
    | some (v, r) =>
      match skipWs r with
      | [] => none
      | c :: r2 =>
        if c = ',' then
          match parseElems fuel r2 with
          | some (vs, r3) => some (.cons v vs, r3)
          | none => none
        else if c = ']' then some (.cons v .nil, r2)
        else none

def parseMembers : Nat → List Char → Option (JMembers × List Char)
  | 0, _ => none
  | fuel + 1, cs =>
    match skipWs cs with
    | [] => none
    | c :: r =>
      if c = '"' then
        match parseStrBody r with
        | none => none
        | some (k, r2) =>
          match skipWs r2 with
          | [] => none
          | c2 :: r3 =>
            if c2 = ':' then
              match parseValue fuel r3 with
              | none => none
              | some (v, r4) =>
                match skipWs r4 with
                | [] => none
                | c3 :: r5 =>
                  if c3 = ',' then
                    match parseMembers fuel r5 with
                    | some (ms, r6) => some (.cons (String.mk k) v ms, r6)
                    | none => none
                  else if c3 = '\x7d' then some (.cons (String.mk k) v .nil, r5)
                  else none
            else none
      else none

end

/-- Model of `json.loads`: parse a whole string as one JSON value (trailing
whitespace allowed, anything else after the value is an error). -/
def jparse (s : String) : Option J :=
  match parseValue (2 * s.data.length + 2) s.data with
  | some (v, r) => if skipWs r = [] then some v else none
  | none => none

/-! ## Round trip: parsing the output of the serializer gives the value back -/

mutual

def sizeJ : J → Nat
  | .null => 1
  | .bool _ => 1
  | .num _ => 1
  | .str _ => 1
  | .arr xs => sizeL xs + 1
  | .obj ms => sizeM ms + 1

def sizeL : JList → Nat
  | .nil => 1
  | .cons v tl => sizeJ v + sizeL tl

def sizeM : JMembers → Nat
  | .nil => 1
  | .cons _ v tl => sizeJ v + sizeM tl

end

theorem sizeJ_pos (v : J) : 1 ≤ sizeJ v := by
  cases v <;> simp only [sizeJ] <;> omega

theorem sizeL_pos (vs : JList) : 1 ≤ sizeL vs := by
  cases vs with
  | nil => simp only [sizeL]; omega
  | cons v tl => have := sizeJ_pos v; simp only [sizeL]; omega

theorem sizeM_pos (ms : JMembers) : 1 ≤ sizeM ms := by
  cases ms with
  | nil => simp only [sizeM]; omega
  | cons k v tl => have := sizeJ_pos v; simp only [sizeM]; omega

theorem digit_nonspecial (c : Char) (h : isDigitChar c = true) :
    c ≠ 'n' ∧ c ≠ 't' ∧ c ≠ 'f' ∧ c ≠ '"' ∧ c ≠ '[' ∧ c ≠ '\x7b' ∧ c ≠ '-' ∧
      c ≠ ']' ∧ c ≠ '\x7d' ∧ c ≠ ',' ∧ c ≠ ':' ∧ isWs c = false := by
  rcases digit10 c h with rfl | rfl | rfl | rfl | rfl | rfl | rfl | rfl | rfl | rfl <;> decide

theorem skipWs_cons {c : Char} (l : List Char) (h : isWs c = false) :
    skipWs (c :: l) = c :: l := by
  simp [skipWs, h]

/-- The `dumpsC` output is nonempty and starts with a character that is neither
whitespace nor a closing bracket. -/
theorem dumps_head (v : J) :
    ∃ c tl, dumpsC v = c :: tl ∧ isWs c = false ∧ c ≠ ']' ∧ c ≠ '\x7d' := by
  cases v with
  | null => exact ⟨'n', _, rfl, by decide, by decide, by decide⟩
  | bool b =>
    cases b
    · exact ⟨'f', _, rfl, by decide, by decide, by decide⟩
    · exact ⟨'t', _, rfl, by decide, by decide, by decide⟩
  | num n =>
    by_cases h : n < 0
    · refine ⟨'-', natD n.natAbs, ?_, by decide, by decide, by decide⟩
      simp [dumpsC, intChars, h]
    · match hd : natD n.natAbs with
      | [] => exact absurd hd (natD_ne_nil _)
      | c :: tl =>
        have hc : isDigitChar c = true := natD_digits _ c (by rw [hd]; simp)
        obtain ⟨_, _, _, _, _, _, _, h8, h9, _, _, h12⟩ := digit_nonspecial c hc
        refine ⟨c, tl, ?_, h12, h8, h9⟩
        simp [dumpsC, intChars, h, hd]
  | str s => exact ⟨'"', _, rfl, by decide, by decide, by decide⟩
  | arr xs =>
    cases xs
    · exact ⟨'[', _, rfl, by decide, by decide, by decide⟩
    · exact ⟨'[', _, rfl, by decide, by decide, by decide⟩
  | obj ms =>
    cases ms
    · exact ⟨'\x7b', _, rfl, by decide, by decide, by decide⟩
    · exact ⟨'\x7b', _, rfl, by decide, by decide, by decide⟩

theorem psb_quote (r : List Char) : parseStrBody ('"' :: r) = some ([], r) := by
  rw [parseStrBody.eq_def]
  simp only [Char.reduceEq, reduceIte]

theorem psb_backslash (c2 : Char) (r : List Char) :
    parseStrBody ('\\' :: c2 :: r) =
      match unesc c2, parseStrBody r with
      | some u, some (s, r2) => some (u :: s, r2)
      | _, _ => none := by
  rw [parseStrBody.eq_def]
  simp only [Char.reduceEq, reduceIte]

theorem psb_other {c : Char} (r : List Char) (h1 : ¬ c = '"') (h2 : ¬ c = '\\') :
    parseStrBody (c :: r) =
      match parseStrBody r with
      | some (s, r2) => some (c :: s, r2)
      | none => none := by
  rw [parseStrBody.eq_def]
  simp only [if_neg h1, if_neg h2]

theorem parseStrBody_esc (l : List Char) :
    ∀ rest, parseStrBody (escChars l ++ ('"' :: rest)) = some (l, rest) := by
  induction l with
  | nil =>
    intro rest
    simp only [escChars, List.nil_append]
    exact psb_quote rest
  | cons c cs ih =>
    intro rest
    by_cases h1 : c = '"'
    · subst h1
      rw [show escChars ('"' :: cs) = ['\\', '"'] ++ escChars cs from rfl]
      simp only [List.cons_append, List.nil_append, List.append_assoc]
      rw [psb_backslash, ih rest]
      rfl
    · by_cases h2 : c = '\\'
      · subst h2
        rw [show escChars ('\\' :: cs) = ['\\', '\\'] ++ escChars cs from rfl]
        simp only [List.cons_append, List.nil_append, List.append_assoc]
        rw [psb_backslash, ih rest]
        rfl
      · by_cases h3 : c = '\n'
        · subst h3
          rw [show escChars ('\n' :: cs) = ['\\', 'n'] ++ escChars cs from rfl]
          simp only [List.cons_append, List.nil_append, List.append_assoc]
          rw [psb_backslash, ih rest]
          rfl
        · by_cases h4 : c = '\t'
          · subst h4
            rw [show escChars ('\t' :: cs) = ['\\', 't'] ++ escChars cs from rfl]
            simp only [List.cons_append, List.nil_append, List.append_assoc]
            rw [psb_backslash, ih rest]
            rfl
          · by_cases h5 : c = '\r'
            · subst h5
              rw [show escChars ('\r' :: cs) = ['\\', 'r'] ++ escChars cs from rfl]
              simp only [List.cons_append, List.nil_append, List.append_assoc]
              rw [psb_backslash, ih rest]
              rfl
            · have he : escChars (c :: cs) = [c] ++ escChars cs := by
                simp only [escChars, escChar, if_neg h1, if_neg h2, if_neg h3, if_neg h4,
                  if_neg h5]
              rw [he]
              simp only [List.cons_append, List.nil_append]
              rw [psb_other _ h1 h2, ih rest]

theorem skipWs_ws (l : List Char) : skipWs (' ' :: l) = skipWs l := by
  simp [skipWs, show isWs ' ' = true from rfl]

theorem pv_ws (f : Nat) (l : List Char) :
    parseValue f (' ' :: l) = parseValue f l := by
  cases f with
  | zero => rfl
  | succ f => simp only [parseValue, skipWs_ws]

theorem pe_ws (f : Nat) (l : List Char) :
    parseElems f (' ' :: l) = parseElems f l := by
  cases f with
  | zero => rfl
  | succ f => simp only [parseElems, pv_ws]

theorem pm_ws (f : Nat) (l : List Char) :
    parseMembers f (' ' :: l) = parseMembers f l := by
  cases f with
  | zero => rfl
  | succ f => simp only [parseMembers, skipWs_ws]

/-- Unfolding of the parser on a head character that is not whitespace. -/
theorem pv_head (f : Nat) {c : Char} (rest : List Char) (hws : isWs c = false) :
    parseValue (f + 1) (c :: rest) =
      (if c = 'n' then
        match rest with
        | 'u' :: 'l' :: 'l' :: r => some (J.null, r)
        | _ => none
      else if c = 't' then
        match rest with
        | 'r' :: 'u' :: 'e' :: r => some (J.bool true, r)
        | _ => none
      else if c = 'f' then
        match rest with
        | 'a' :: 'l' :: 's' :: 'e' :: r => some (J.bool false, r)
        | _ => none
      else if c = '"' then
        match parseStrBody rest with
        | some (s, r) => some (J.str (String.mk s), r)
        | none => none
      else if c = '[' then
        match skipWs rest with
        | [] => none
        | c2 :: r2 =>
          if c2 = ']' then some (J.arr .nil, r2)
          else
            match parseElems f (c2 :: r2) with
            | some (vs, r3) => some (J.arr vs, r3)
            | none => none
      else if c = '\x7b' then
        match skipWs rest with
        | [] => none
        | c2 :: r2 =>
          if c2 = '\x7d' then some (J.obj .nil, r2)
          else
            match parseMembers f (c2 :: r2) with
            | some (ms, r3) => some (J.obj ms, r3)
            | none => none
      else if c = '-' then
        match splitDigits rest with
        | ([], _) => none
        | (ds, r) => some (J.num (-(valOf ds : Int)), r)
      else if isDigitChar c then
        match splitDigits (c :: rest) with
        | ([], _) => none
        | (ds, r) => some (J.num ((valOf ds : Nat) : Int), r)
      else none) := by
  simp only [parseValue, skipWs_cons rest hws]

theorem pv_quote (f : Nat) (r : List Char) :
    parseValue (f + 1) ('"' :: r) =
      match parseStrBody r with
      | some (s, r2) => some (J.str (String.mk s), r2)
      | none => none := by
  rw [pv_head f r (by decide)]
  simp only [Char.reduceEq, reduceIte]

theorem pv_lbrack (f : Nat) (r : List Char) :
    parseValue (f + 1) ('[' :: r) =
      match skipWs r with
      | [] => none
      | c2 :: r2 =>
        if c2 = ']' then some (J.arr .nil, r2)
        else
          match parseElems f (c2 :: r2) with
          | some (vs, r3) => some (J.arr vs, r3)
          | none => none := by
  rw [pv_head f r (by decide)]
  simp only [Char.reduceEq, reduceIte]

theorem pv_lbrace (f : Nat) (r : List Char) :
    parseValue (f + 1) ('\x7b' :: r) =
      match skipWs r with
      | [] => none
      | c2 :: r2 =>
        if c2 = '\x7d' then some (J.obj .nil, r2)
        else
          match parseMembers f (c2 :: r2) with
          | some (ms, r3) => some (J.obj ms, r3)
          | none => none := by
  rw [pv_head f r (by decide)]
  simp only [Char.reduceEq, reduceIte]

theorem pv_minus (f : Nat) (r : List Char) :
    parseValue (f + 1) ('-' :: r) =
      match splitDigits r with
      | ([], _) => none
      | (ds, r2) => some (J.num (-(valOf ds : Int)), r2) := by
  rw [pv_head f r (by decide)]
  simp only [Char.reduceEq, reduceIte]

theorem pv_digit (f : Nat) {c : Char} (r : List Char) (h : isDigitChar c = true) :
    parseValue (f + 1) (c :: r) =
      match splitDigits (c :: r) with
      | ([], _) => none
      | (ds, r2) => some (J.num ((valOf ds : Nat) : Int), r2) := by
  rcases digit10 c h with rfl | rfl | rfl | rfl | rfl | rfl | rfl | rfl | rfl | rfl <;>
    · rw [pv_head _ r (by decide)]
      simp only [Char.reduceEq, reduceIte, isDigitChar, Bool.or_self, reduceCtorEq]
      rfl

theorem pv_lbrack_cons (f : Nat) {c2 : Char} (r2 : List Char) (h : isWs c2 = false)
    (hne : ¬ c2 = ']') :
    parseValue (f + 1) ('[' :: c2 :: r2) =
      match parseElems f (c2 :: r2) with
      | some (vs, r3) => some (J.arr vs, r3)
      | none => none := by
  rw [pv_lbrack, skipWs_cons _ h]
  show (if c2 = ']' then some (J.arr .nil, r2)
        else
          match parseElems f (c2 :: r2) with
          | some (vs, r3) => some (J.arr vs, r3)
          | none => none) = _
  rw [if_neg hne]

theorem pv_lbrace_cons (f : Nat) {c2 : Char} (r2 : List Char) (h : isWs c2 = false)
    (hne : ¬ c2 = '\x7d') :
    parseValue (f + 1) ('\x7b' :: c2 :: r2) =
      match parseMembers f (c2 :: r2) with
      | some (ms, r3) => some (J.obj ms, r3)
      | none => none := by
  rw [pv_lbrace, skipWs_cons _ h]
  show (if c2 = '\x7d' then some (J.obj .nil, r2)
        else
          match parseMembers f (c2 :: r2) with
          | some (ms, r3) => some (J.obj ms, r3)
          | none => none) = _
  rw [if_neg hne]

/-- The heart of the round trip: on serializer output, each parser component
returns exactly the serialized value and the untouched remainder. -/
theorem parse_dumps (fuel : Nat) :
    (∀ v rest, sizeJ v ≤ fuel →
      (match rest with | [] => True | c :: _ => isDigitChar c = false) →
      parseValue fuel (dumpsC v ++ rest) = some (v, rest)) ∧
    (∀ v vs rest, sizeJ v + sizeL vs ≤ fuel →
      parseElems fuel (dumpsC v ++ (dumpsLT vs ++ (']' :: rest))) =
        some (.cons v vs, rest)) ∧
    (∀ k v ms rest, sizeJ v + sizeM ms ≤ fuel →
      parseMembers fuel ('"' :: (escChars k.data ++ ('"' :: ':' :: ' ' ::
        (dumpsC v ++ (dumpsMT ms ++ ('\x7d' :: rest)))))) =
        some (.cons k v ms, rest)) := by
  induction fuel with
  | zero =>
    refine ⟨?_, ?_, ?_⟩
    · intro v rest h _; have := sizeJ_pos v; omega
    · intro v vs rest h; have := sizeJ_pos v; have := sizeL_pos vs; omega
    · intro k v ms rest h; have := sizeJ_pos v; have := sizeM_pos ms; omega
  | succ fuel ih =>
    obtain ⟨P, Q, R⟩ := ih
    refine ⟨?_, ?_, ?_⟩
    · -- parseValue on a dumped value
      intro v rest hsz hrest
      cases v with
      | null =>
        rw [show dumpsC J.null ++ rest = 'n' :: 'u' :: 'l' :: 'l' :: rest from rfl]
        rw [pv_head fuel _ (by decide)]
        simp only [Char.reduceEq, reduceIte]
      | bool b =>
        cases b
        · rw [show dumpsC (J.bool false) ++ rest = 'f' :: 'a' :: 'l' :: 's' :: 'e' :: rest
            from rfl]
          rw [pv_head fuel _ (by decide)]
          simp only [Char.reduceEq, reduceIte]
        · rw [show dumpsC (J.bool true) ++ rest = 't' :: 'r' :: 'u' :: 'e' :: rest from rfl]
          rw [pv_head fuel _ (by decide)]
          simp only [Char.reduceEq, reduceIte]
      | str s =>
        have hx : dumpsC (J.str s) ++ rest = '"' :: (escChars s.data ++ ('"' :: rest)) := by
          simp only [dumpsC, List.cons_append, List.append_assoc, List.singleton_append,
            List.nil_append]
        rw [hx, pv_quote, parseStrBody_esc]
      | num n =>
        by_cases hneg : n < 0
        · match hnd : natD n.natAbs with
          | [] => exact absurd hnd (natD_ne_nil _)
          | c :: tl =>
            have hx : dumpsC (J.num n) ++ rest = '-' :: ((c :: tl) ++ rest) := by
              simp only [dumpsC, intChars, if_pos hneg, hnd, List.cons_append]
            rw [hx, pv_minus]
            rw [splitDigits_spec (c :: tl) rest (hnd ▸ natD_digits n.natAbs) hrest]
            show some (J.num (-(valOf (c :: tl) : Int)), rest) = some (J.num n, rest)
            rw [← hnd, valOf_natD]
            have he : -(n.natAbs : Int) = n := by omega
            rw [he]
        · match hnd : natD n.natAbs with
          | [] => exact absurd hnd (natD_ne_nil _)
          | c :: tl =>
            have hc : isDigitChar c = true := natD_digits _ c (by rw [hnd]; simp)
            have hx : dumpsC (J.num n) ++ rest = c :: (tl ++ rest) := by
              simp only [dumpsC, intChars, if_neg hneg, hnd, List.cons_append]
            rw [hx, pv_digit fuel _ hc]
            rw [← List.cons_append,
              splitDigits_spec (c :: tl) rest (hnd ▸ natD_digits n.natAbs) hrest]
            show some (J.num ((valOf (c :: tl) : Nat) : Int), rest) = some (J.num n, rest)
            rw [← hnd, valOf_natD]
            have he : ((n.natAbs : Nat) : Int) = n := by omega
            rw [he]
      | arr xs =>
        cases xs with
        | nil =>
          rw [show dumpsC (J.arr .nil) ++ rest = '[' :: ']' :: rest from rfl, pv_lbrack,
            skipWs_cons _ (by decide)]
          show (if ']' = ']' then some (J.arr .nil, rest)
                else
                  match parseElems fuel (']' :: rest) with
                  | some (vs, r3) => some (J.arr vs, r3)
                  | none => none) = some (J.arr .nil, rest)
          rw [if_pos rfl]
        | cons v vs =>
          have hx : dumpsC (J.arr (.cons v vs)) ++ rest =
              '[' :: (dumpsC v ++ (dumpsLT vs ++ (']' :: rest))) := by
            simp only [dumpsC, List.cons_append, List.append_assoc, List.singleton_append,
            List.nil_append]
          rw [hx]
          obtain ⟨c, tl, hd, hws, hne1, hne2⟩ := dumps_head v
          rw [hd, List.cons_append, pv_lbrack_cons fuel _ hws hne1, ← List.cons_append, ← hd]
          simp only [sizeJ, sizeL] at hsz
          rw [Q v vs rest (by omega)]
      | obj ms =>
        cases ms with
        | nil =>
          rw [show dumpsC (J.obj .nil) ++ rest = '\x7b' :: '\x7d' :: rest from rfl, pv_lbrace,
            skipWs_cons _ (by decide)]
          show (if '\x7d' = '\x7d' then some (J.obj .nil, rest)
                else
                  match parseMembers fuel ('\x7d' :: rest) with
                  | some (ms, r3) => some (J.obj ms, r3)
                  | none => none) = some (J.obj .nil, rest)
          rw [if_pos rfl]
        | cons k v ms =>
          have hx : dumpsC (J.obj (.cons k v ms)) ++ rest =
              '\x7b' :: '"' :: (escChars k.data ++ ('"' :: ':' :: ' ' ::
                (dumpsC v ++ (dumpsMT ms ++ ('\x7d' :: rest))))) := by
            simp only [dumpsC, List.cons_append, List.append_assoc, List.singleton_append,
            List.nil_append]
          rw [hx, pv_lbrace_cons fuel _ (by decide) (by decide)]
          simp only [sizeJ, sizeM] at hsz
          rw [R k v ms rest (by omega)]
    · -- parseElems on a dumped element list
      intro v vs rest hsz
      have hszv : sizeJ v ≤ fuel := by
        have := sizeL_pos vs; omega
      cases vs with
      | nil =>
        simp only [dumpsLT, List.nil_append]
        simp only [parseElems]
        rw [P v (']' :: rest) hszv (by exact rfl)]
        show (match skipWs (']' :: rest) with
              | [] => none
              | c :: r2 =>
                if c = ',' then
                  match parseElems fuel r2 with
                  | some (vs', r3) => some (JList.cons v vs', r3)
                  | none => none
                else if c = ']' then some (JList.cons v JList.nil, r2)
                else none) = some (JList.cons v JList.nil, rest)
        rw [skipWs_cons _ (by decide)]
        show (if ']' = ',' then
                match parseElems fuel rest with
                | some (vs', r3) => some (JList.cons v vs', r3)
                | none => none
              else if ']' = ']' then some (JList.cons v JList.nil, rest)
              else none) = some (JList.cons v JList.nil, rest)
        simp only [Char.reduceEq, reduceIte]
      | cons v2 vs2 =>
        simp only [dumpsLT, List.cons_append, List.append_assoc]
        simp only [parseElems]
        rw [P v (',' :: ' ' :: (dumpsC v2 ++ (dumpsLT vs2 ++ (']' :: rest)))) hszv
          (by exact rfl)]
        show (match skipWs (',' :: ' ' :: (dumpsC v2 ++ (dumpsLT vs2 ++ (']' :: rest)))) with
              | [] => none
              | c :: r2 =>
                if c = ',' then
                  match parseElems fuel r2 with
                  | some (vs', r3) => some (JList.cons v vs', r3)
                  | none => none
                else if c = ']' then some (JList.cons v JList.nil, r2)
                else none) = some (JList.cons v (JList.cons v2 vs2), rest)
        rw [skipWs_cons _ (by decide)]
        show (if ',' = ',' then
                match parseElems fuel (' ' :: (dumpsC v2 ++ (dumpsLT vs2 ++ (']' :: rest)))) with
                | some (vs', r3) => some (JList.cons v vs', r3)
                | none => none
              else if ',' = ']' then
                some (JList.cons v JList.nil,
                  ' ' :: (dumpsC v2 ++ (dumpsLT vs2 ++ (']' :: rest))))
              else none) = some (JList.cons v (JList.cons v2 vs2), rest)
        rw [if_pos rfl, pe_ws]
        simp only [sizeL] at hsz
        have := sizeJ_pos v
        rw [Q v2 vs2 rest (by omega)]
    · -- parseMembers on a dumped member list
      intro k v ms rest hsz
      have hszv : sizeJ v ≤ fuel := by
        have := sizeM_pos ms; omega
      cases ms with
      | nil =>
        simp only [dumpsMT, List.nil_append]
        simp only [parseMembers]
        rw [skipWs_cons _ (by decide)]
        show (if ('"' : Char) = '"' then
                match parseStrBody (escChars k.data ++ ('"' :: ':' :: ' ' ::
                    (dumpsC v ++ ('\x7d' :: rest)))) with
                | none => none
                | some (k', r2) =>
                  match skipWs r2 with
                  | [] => none
                  | c2 :: r3 =>
                    if c2 = ':' then
                      match parseValue fuel r3 with
                      | none => none
                      | some (v', r4) =>
                        match skipWs r4 with
                        | [] => none
                        | c3 :: r5 =>
                          if c3 = ',' then
                            match parseMembers fuel r5 with
                            | some (ms', r6) => some (JMembers.cons (String.mk k') v' ms', r6)
                            | none => none
                          else if c3 = '\x7d' then
                            some (JMembers.cons (String.mk k') v' JMembers.nil, r5)
                          else none
                    else none
              else none) = some (JMembers.cons k v JMembers.nil, rest)
        rw [if_pos rfl, parseStrBody_esc]
        show (match skipWs (':' :: ' ' :: (dumpsC v ++ ('\x7d' :: rest))) with
              | [] => none
              | c2 :: r3 =>
                if c2 = ':' then
                  match parseValue fuel r3 with
                  | none => none
                  | some (v', r4) =>
                    match skipWs r4 with
                    | [] => none
                    | c3 :: r5 =>
                      if c3 = ',' then
                        match parseMembers fuel r5 with
                        | some (ms', r6) => some (JMembers.cons k v' ms', r6)
                        | none => none
                      else if c3 = '\x7d' then some (JMembers.cons k v' JMembers.nil, r5)
                      else none
                else none) = some (JMembers.cons k v JMembers.nil, rest)
        rw [skipWs_cons _ (by decide)]
        show (if (':' : Char) = ':' then
                match parseValue fuel (' ' :: (dumpsC v ++ ('\x7d' :: rest))) with
                | none => none
                | some (v', r4) =>
                  match skipWs r4 with
                  | [] => none
                  | c3 :: r5 =>
                    if c3 = ',' then
                      match parseMembers fuel r5 with
                      | some (ms', r6) => some (JMembers.cons k v' ms', r6)
                      | none => none
                    else if c3 = '\x7d' then some (JMembers.cons k v' JMembers.nil, r5)
                    else none
              else none) = some (JMembers.cons k v JMembers.nil, rest)
        rw [if_pos rfl, pv_ws, P v ('\x7d' :: rest) hszv (by exact rfl)]
        show (match skipWs ('\x7d' :: rest) with
              | [] => none
              | c3 :: r5 =>
                if c3 = ',' then
                  match parseMembers fuel r5 with
                  | some (ms', r6) => some (JMembers.cons k v ms', r6)
                  | none => none
                else if c3 = '\x7d' then some (JMembers.cons k v JMembers.nil, r5)
                else none) = some (JMembers.cons k v JMembers.nil, rest)
        rw [skipWs_cons _ (by decide)]
        show (if ('\x7d' : Char) = ',' then
                match parseMembers fuel rest with
                | some (ms', r6) => some (JMembers.cons k v ms', r6)
                | none => none
              else if ('\x7d' : Char) = '\x7d' then some (JMembers.cons k v JMembers.nil, rest)
              else none) = some (JMembers.cons k v JMembers.nil, rest)
        simp only [Char.reduceEq, reduceIte]
      | cons k2 v2 ms2 =>
        simp only [dumpsMT, List.cons_append, List.append_assoc]
        simp only [parseMembers]
        rw [skipWs_cons _ (by decide)]
        show (if ('"' : Char) = '"' then
                match parseStrBody (escChars k.data ++ ('"' :: ':' :: ' ' ::
                    (dumpsC v ++ (',' :: ' ' :: ('"' :: (escChars k2.data ++
                      ('"' :: ':' :: ' ' :: (dumpsC v2 ++
                        (dumpsMT ms2 ++ ('\x7d' :: rest)))))))))) with
                | none => none
                | some (k', r2) =>
                  match skipWs r2 with
                  | [] => none
                  | c2 :: r3 =>
                    if c2 = ':' then
                      match parseValue fuel r3 with
                      | none => none
                      | some (v', r4) =>
                        match skipWs r4 with
                        | [] => none
                        | c3 :: r5 =>
                          if c3 = ',' then
                            match parseMembers fuel r5 with
                            | some (ms', r6) => some (JMembers.cons (String.mk k') v' ms', r6)
                            | none => none
                          else if c3 = '\x7d' then
                            some (JMembers.cons (String.mk k') v' JMembers.nil, r5)
                          else none
                    else none
              else none) = some (JMembers.cons k v (JMembers.cons k2 v2 ms2), rest)
        rw [if_pos rfl, parseStrBody_esc]
        show (match skipWs (':' :: ' ' :: (dumpsC v ++ (',' :: ' ' :: ('"' ::
                (escChars k2.data ++ ('"' :: ':' :: ' ' :: (dumpsC v2 ++
                  (dumpsMT ms2 ++ ('\x7d' :: rest))))))))) with
              | [] => none
              | c2 :: r3 =>
                if c2 = ':' then
                  match parseValue fuel r3 with
                  | none => none
                  | some (v', r4) =>
                    match skipWs r4 with
                    | [] => none
                    | c3 :: r5 =>
                      if c3 = ',' then
                        match parseMembers fuel r5 with
                        | some (ms', r6) => some (JMembers.cons k v' ms', r6)
                        | none => none
                      else if c3 = '\x7d' then some (JMembers.cons k v' JMembers.nil, r5)
                      else none
                else none) = some (JMembers.cons k v (JMembers.cons k2 v2 ms2), rest)
        rw [skipWs_cons _ (by decide)]
        show (if (':' : Char) = ':' then
                match parseValue fuel (' ' :: (dumpsC v ++ (',' :: ' ' :: ('"' ::
                    (escChars k2.data ++ ('"' :: ':' :: ' ' :: (dumpsC v2 ++
                      (dumpsMT ms2 ++ ('\x7d' :: rest))))))))) with
                | none => none
                | some (v', r4) =>
                  match skipWs r4 with
                  | [] => none
                  | c3 :: r5 =>
                    if c3 = ',' then
                      match parseMembers fuel r5 with
                      | some (ms', r6) => some (JMembers.cons k v' ms', r6)
                      | none => none
                    else if c3 = '\x7d' then some (JMembers.cons k v' JMembers.nil, r5)
                    else none
              else none) = some (JMembers.cons k v (JMembers.cons k2 v2 ms2), rest)
        rw [if_pos rfl, pv_ws,
          P v (',' :: ' ' :: ('"' :: (escChars k2.data ++ ('"' :: ':' :: ' ' ::
            (dumpsC v2 ++ (dumpsMT ms2 ++ ('\x7d' :: rest))))))) hszv (by exact rfl)]
        show (match skipWs (',' :: ' ' :: ('"' :: (escChars k2.data ++ ('"' :: ':' :: ' ' ::
                (dumpsC v2 ++ (dumpsMT ms2 ++ ('\x7d' :: rest))))))) with
              | [] => none
              | c3 :: r5 =>
                if c3 = ',' then
                  match parseMembers fuel r5 with
                  | some (ms', r6) => some (JMembers.cons k v ms', r6)
                  | none => none
                else if c3 = '\x7d' then some (JMembers.cons k v JMembers.nil, r5)
                else none) = some (JMembers.cons k v (JMembers.cons k2 v2 ms2), rest)
        rw [skipWs_cons _ (by decide)]
        show (if (',' : Char) = ',' then
                match parseMembers fuel (' ' :: ('"' :: (escChars k2.data ++
                    ('"' :: ':' :: ' ' :: (dumpsC v2 ++
                      (dumpsMT ms2 ++ ('\x7d' :: rest))))))) with
                | some (ms', r6) => some (JMembers.cons k v ms', r6)
                | none => none
              else if (',' : Char) = '\x7d' then
                some (JMembers.cons k v JMembers.nil, ' ' :: ('"' :: (escChars k2.data ++
                  ('"' :: ':' :: ' ' :: (dumpsC v2 ++ (dumpsMT ms2 ++ ('\x7d' :: rest)))))))
              else none) = some (JMembers.cons k v (JMembers.cons k2 v2 ms2), rest)
        rw [if_pos rfl, pm_ws]
        simp only [sizeM] at hsz
        have := sizeJ_pos v
        rw [R k2 v2 ms2 rest (by omega)]

mutual

theorem sizeJ_le : (v : J) → sizeJ v ≤ 2 * (dumpsC v).length
  | .null => by simp [sizeJ, dumpsC]
  | .bool true => by simp [sizeJ, dumpsC]
  | .bool false => by simp [sizeJ, dumpsC]
  | .num n => by
    have h2 : 0 < (natD n.natAbs).length := List.length_pos.mpr (natD_ne_nil _)
    by_cases h : n < 0 <;>
      simp only [sizeJ, dumpsC, intChars, h, if_true, if_false, List.length_cons] <;> omega
  | .str s => by simp [sizeJ, dumpsC]; omega
  | .arr .nil => by simp [sizeJ, sizeL, dumpsC]
  | .arr (.cons v vs) => by
    have h1 := sizeJ_le v
    have h2 := sizeL_le vs
    simp only [sizeJ, sizeL, dumpsC, List.length_cons, List.length_append,
      List.length_singleton] at *
    omega
  | .obj .nil => by simp [sizeJ, sizeM, dumpsC]
  | .obj (.cons k v ms) => by
    have h1 := sizeJ_le v
    have h2 := sizeM_le ms
    simp only [sizeJ, sizeM, dumpsC, List.length_cons, List.length_append,
      List.length_singleton] at *
    omega

theorem sizeL_le : (vs : JList) → sizeL vs ≤ 2 * (dumpsLT vs).length + 2
  | .nil => by simp [sizeL, dumpsLT]
  | .cons v vs => by
    have h1 := sizeJ_le v
    have h2 := sizeL_le vs
    simp only [sizeL, dumpsLT, List.length_cons, List.length_append] at *
    omega

theorem sizeM_le : (ms : JMembers) → sizeM ms ≤ 2 * (dumpsMT ms).length + 2
  | .nil => by simp [sizeM, dumpsMT]
  | .cons k v ms => by
    have h1 := sizeJ_le v
    have h2 := sizeM_le ms
    simp only [sizeM, dumpsMT, List.length_cons, List.length_append] at *
    omega

end

/-- Serialize-then-parse is the identity on JSON values. -/
theorem jparse_dumps (v : J) : jparse (dumps v) = some v := by
  have hle : sizeJ v ≤ 2 * (dumpsC v).length + 2 := by
    have := sizeJ_le v; omega
  have h := (parse_dumps (2 * (dumpsC v).length + 2)).1 v [] hle trivial
  rw [List.append_nil] at h
  show (match parseValue (2 * (dumps v).data.length + 2) (dumps v).data with
        | some (v', r) => if skipWs r = [] then some v' else none
        | none => none) = some v
  rw [show (dumps v).data = dumpsC v from rfl, h]
  show (if skipWs ([] : List Char) = [] then some v else none) = some v
  rfl

/-! ## Python rendering helpers used in the console confirmation lines

`pyToStr v` models what an f-string interpolation `f"{v}"` prints for a value
obtained from `json.loads`: strings print bare, other values print with
`str`/`repr` (single quotes around strings; quote escaping inside a repr is
cosmetic and not modelled — no handler output that a claim mentions uses it).
-/

/-- A single-quote character, used by the Python `repr` of strings. -/
def squote : String := String.singleton (Char.ofNat 39)

mutual

def pyReprJ : J → String
  | .null => "None"
  | .bool true => "True"
  | .bool false => "False"
  | .num n => String.mk (intChars n)
  | .str s => squote ++ s ++ squote
  | .arr xs => "[" ++ pyReprL xs ++ "]"
  | .obj ms => "\x7b" ++ pyReprM ms ++ "\x7d"

def pyReprL : JList → String
  | .nil => ""
  | .cons v .nil => pyReprJ v
  | .cons v vs => pyReprJ v ++ ", " ++ pyReprL vs

def pyReprM : JMembers → String
  | .nil => ""
  | .cons k v .nil => squote ++ k ++ squote ++ ": " ++ pyReprJ v
  | .cons k v ms => squote ++ k ++ squote ++ ": " ++ pyReprJ v ++ ", " ++ pyReprM ms

end

/-- f-string interpolation of a JSON value. -/
def pyToStr : J → String
  | .str s => s
  | v => pyReprJ v

/-- f-string interpolation of `dict.get(key)` (which may be `None`). -/
def pyOptStr : Option J → String
  | none => "None"
  | some v => pyToStr v

/-- Python slicing `v[:n]`: works on strings and lists, raises `TypeError`
on other values. -/
def pySlice (v : J) (n : Nat) : Except Unit J :=
  match v with
  | .str s => .ok (.str (String.mk (s.data.take n)))
  | .arr xs => .ok (.arr (takeJList n xs))
  | _ => .error ()

/-- Python `v.get(key, default)` on a value that the code assumes is a dict:
raises `AttributeError` if `v` is not a mapping. -/
def pyGetD (v : J) (key : String) (d : J) : Except Unit J :=
  match v with
  | .obj ms => .ok (mfindD ms key d)
  | _ => .error ()

/-- The `exit_code` field as JSON (`None` becomes `null`). -/
def optNatJ : Option Nat → J
  | none => J.null
  | some n => J.num n

/-- f-string interpolation of the optional exit code. -/
def optNatStr : Option Nat → String
  | none => "None"
  | some n => String.mk (natD n)

/-! ## The three handlers

Each handler is modelled as a function of the parsed event, a flag saying
whether the log-file append succeeds, and the timestamp string; the result
records the appended log records, the stdout and stderr lines, and the
process exit status (an uncaught Python exception terminates the process
with status 1 and a traceback on stderr).
-/

structure HookOut (α : Type) where
  log : List α
  out : List String
  err : List String
  exit : Nat

/-- The record `log-all-bash.py` builds: timestamp plus the whole payload. -/
def recordA (ms : JMembers) (ts : String) : JMembers :=
  .cons "timestamp" (J.str ts) (.cons "raw_hook_payload" (J.obj ms) .nil)

/-- hooks/log-all-bash.py (`main`), after `json.loads` succeeded. -/
def variantA (e : J) (w : Bool) (ts : String) : HookOut J :=
  match e with
  | J.obj ms =>
    if isStrVal (mfindD ms "tool_name" J.null) "Bash" = false then ⟨[], [], [], 0⟩
    else if w then
      match pyGetD (mfindD ms "tool_input" (J.obj .nil)) "command" (J.str "N/A") with
      | .error _ => ⟨[J.obj (recordA ms ts)], [], ["Error writing to log"], 1⟩
      | .ok cv =>
        match pySlice cv 40 with
        | .error _ => ⟨[J.obj (recordA ms ts)], [], ["Error writing to log"], 1⟩
        | .ok cs => ⟨[J.obj (recordA ms ts)], ["[LOGGED ALL] " ++ pyToStr cs ++ "..."], [], 0⟩
    else ⟨[], [], ["Error writing to log"], 1⟩
  | _ => ⟨[], [], ["AttributeError"], 1⟩

/-- Model of `re.match(r"Exit code (\d+)", s)` followed by `int(group(1))`:
the leading integer when the message starts with the pattern, absent
otherwise. -/
def extractExitCode (s : String) : Option Nat :=
  if ['E', 'x', 'i', 't', ' ', 'c', 'o', 'd', 'e', ' '].isPrefixOf s.data then
    match splitDigits (s.data.drop 10) with
    | ([], _) => none
    | (ds, _) => some (valOf ds)
  else none

/-- The record `log-failed-bash.py` builds (`log_entry`). -/
def recordB (ms tms : JMembers) (ts : String) (ec : Option Nat) : JMembers :=
  .cons "timestamp" (J.str ts)
    (.cons "exit_code" (optNatJ ec)
      (.cons "command" (mfindD tms "command" J.null)
        (.cons "description" (mfindD tms "description" J.null)
          (.cons "error_message" (mfindD ms "error" (J.str ""))
            (.cons "is_interrupt" (mfindD ms "is_interrupt" (J.bool false))
              (.cons "session_id" (mfindD ms "session_id" J.null)
                (.cons "cwd" (mfindD ms "cwd" J.null)
                  (.cons "tool_use_id" (mfindD ms "tool_use_id" J.null) .nil))))))))

/-- The tail of `log-failed-bash.py`'s `main` after the exit code was
extracted (building `log_entry`, appending it, printing the confirmation). -/
def variantBTail (ms : JMembers) (w : Bool) (ts : String) (ec : Option Nat) : HookOut J :=
  match mfindD ms "tool_input" (J.obj .nil) with
  | J.obj tms =>
    if w then
      match pySlice (mfindD tms "command" (J.str "N/A")) 40 with
      | .error _ => ⟨[J.obj (recordB ms tms ts ec)], [], ["Error writing to log"], 1⟩
      | .ok cs =>
        ⟨[J.obj (recordB ms tms ts ec)],
          ["[LOGGED FAILURE] exit=" ++ optNatStr ec ++ " cmd=" ++ pyToStr cs ++ "..."],
          [], 0⟩
    else ⟨[], [], ["Error writing to log"], 1⟩
  | _ => ⟨[], [], ["AttributeError"], 1⟩

/-- hooks/log-failed-bash.py (`main`), after `json.loads` succeeded. -/
def variantB (e : J) (w : Bool) (ts : String) : HookOut J :=
  match e with
  | J.obj ms =>
    if isStrVal (mfindD ms "tool_name" J.null) "Bash" = false then ⟨[], [], [], 0⟩
    else
      let errMsg := mfindD ms "error" (J.str "")
      if pyTruthy errMsg then
        match errMsg with
        | J.str s => variantBTail ms w ts (extractExitCode s)
        | _ => ⟨[], [], ["TypeError"], 1⟩
      else variantBTail ms w ts none
  | _ => ⟨[], [], ["AttributeError"], 1⟩

/-- Append one line (the `with open(...): f.write(...)` of variant C). -/
def emitC (w : Bool) (line : String) : HookOut String :=
  if w then ⟨[line], [], [], 0⟩ else ⟨[], [], ["Error writing to log"], 1⟩

/-- hooks/log-build-loop.py (`main`), after `load_hook_input` returned. -/
def variantC (e : J) (w : Bool) (ts : String) : HookOut String :=
  match e with
  | J.obj ms =>
    let he := mfindD ms "hook_event_name" (J.str "")
    let tn := mfind ms "tool_name"
    if isStrVal he "PreToolUse" then
      let ti := mfindD ms "tool_input" (J.obj .nil)
      emitC w ("[" ++ ts ++ "] PRE_TOOL: " ++ pyOptStr tn ++ " " ++ dumps ti ++ "\n")
    else if isStrVal he "PostToolUse" then
      emitC w ("[" ++ ts ++ "] POST_TOOL: " ++ dumps e ++ "\n")
    else if isStrVal he "SubagentStop" then
      emitC w ("[" ++ ts ++ "] AGENT_STOP: " ++ dumps e ++ "\n")
    else if isStrVal he "Stop" then
      emitC w ("[" ++ ts ++ "] END_TURN: " ++ dumps e ++ "\n")
    else if isStrVal he "UserPromptSubmit" then
      let prompt := mfindD ms "prompt" (J.str "")
      if pyTruthy prompt then
        match pySlice prompt 100 with
        | .error _ => ⟨[], [], ["TypeError"], 1⟩
        | .ok sv => emitC w ("[" ++ ts ++ "] PROMPT: " ++ pyToStr sv ++ "\n")
      else emitC w ("[" ++ ts ++ "] PROMPT: N/A\n")
    else if isStrVal he "SessionStart" then
      emitC w ("[" ++ ts ++ "] SESSION_START: " ++ dumps e ++ "\n")
    else if isStrVal he "Notification" then
      emitC w ("[" ++ ts ++ "] NOTIFICATION: " ++ dumps e ++ "\n")
    else
      emitC w ("[" ++ ts ++ "] UNKNOWN: " ++ dumps e ++ "\n")
  | _ => ⟨[], [], ["AttributeError"], 1⟩

/-! ## The full pipelines, from the raw standard input -/

/-- hooks/log-all-bash.py from raw stdin: `json.loads` then `main`. -/
def runA (stdin : String) (w : Bool) (ts : String) : HookOut J :=
  match jparse stdin with
  | none => ⟨[], [], ["Error: Invalid JSON input"], 1⟩
  | some e => variantA e w ts

/-- hooks/log-failed-bash.py from raw stdin. -/
def runB (stdin : String) (w : Bool) (ts : String) : HookOut J :=
  match jparse stdin with
  | none => ⟨[], [], ["Error: Invalid JSON input"], 1⟩
  | some e => variantB e w ts

/-- The `ASP_*` environment variables of the Pi hook bridge. -/
structure EnvC where
  toolName : Option String
  toolArgs : Option String
  toolResult : Option String

/-- The value `os.environ.get("ASP_TOOL_NAME")` as a JSON value (`None` → `null`). -/
def optStrJ : Option String → J
  | none => J.null
  | some s => J.str s

/-- The event synthesized by the Pi bridge in `load_hook_input`:
tool name from the environment, `ASP_TOOL_ARGS`/`ASP_TOOL_RESULT` parsed as
JSON (defaulting to `{}`), and the literal `source: "pi"` marker. -/
def envEvent (env : EnvC) : Option J :=
  match jparse (env.toolArgs.getD "\x7b\x7d"), jparse (env.toolResult.getD "\x7b\x7d") with
  | some a, some r =>
    some (J.obj (.cons "tool_name" (optStrJ env.toolName)
      (.cons "tool_args" a
        (.cons "tool_result" r
          (.cons "source" (J.str "pi") .nil)))))
  | _, _ => none

/-- Python's `raw_input.strip()` on the character list. -/
def pyStripData (l : List Char) : List Char :=
  ((l.dropWhile fun c => isWs c).reverse.dropWhile fun c => isWs c).reverse

/-- hooks/log-build-loop.py from raw stdin and environment:
`load_hook_input` (stdin if nonempty after stripping, else the env bridge;
a malformed `ASP_*` JSON raises an uncaught `JSONDecodeError`) then `main`. -/
def runC (stdin : String) (env : EnvC) (w : Bool) (ts : String) : HookOut String :=
  if (pyStripData stdin.data).isEmpty then
    match envEvent env with
    | none => ⟨[], [], ["JSONDecodeError"], 1⟩
    | some e => variantC e w ts
  else
    match jparse stdin with
    | none => ⟨[], [], ["Error: Invalid JSON input"], 1⟩
    | some e => variantC e w ts

/-! ## Field-typing side conditions (the types §6 of the spec declares) -/

/-- Field `tool_input`, when present, is a mapping. -/
def tiOk (ms : JMembers) : Prop :=
  mfind ms "tool_input" = none ∨ ∃ t, mfind ms "tool_input" = some (J.obj t)

/-- Field `tool_input.command`, when present, is a string. -/
def cmdOk (ms : JMembers) : Prop :=
  ∀ t, mfind ms "tool_input" = some (J.obj t) →
    mfind t "command" = none ∨ ∃ s, mfind t "command" = some (J.str s)

/-- Field `error`, when present, is a string. -/
def errOk (ms : JMembers) : Prop :=
  mfind ms "error" = none ∨ ∃ s, mfind ms "error" = some (J.str s)

/-- Field `prompt`, when present, is a string. -/
def promptOk (ms : JMembers) : Prop :=
  mfind ms "prompt" = none ∨ ∃ s, mfind ms "prompt" = some (J.str s)

/-! ## Helper lemmas about the handlers -/

theorem isStrVal_of_ne {v : J} (s : String) (h : v ≠ J.str s) :
    isStrVal v s = false := by
  cases v <;> simp only [isStrVal]
  rename_i t
  simp only [decide_eq_false_iff_not]
  intro he
  exact h (by rw [he])

theorem isStrVal_self (s : String) : isStrVal (J.str s) s = true := by
  simp [isStrVal]

theorem variantA_exit (e : J) (w : Bool) (ts : String) :
    (variantA e w ts).exit = 0 ∨ (variantA e w ts).exit = 1 := by
  cases e with
  | obj ms =>
    simp only [variantA]
    split
    · left; rfl
    · split
      · split
        · right; rfl
        · split
          · right; rfl
          · left; rfl
      · right; rfl
  | null => right; rfl
  | bool b => right; rfl
  | num n => right; rfl
  | str s => right; rfl
  | arr xs => right; rfl

theorem variantBTail_exit (ms : JMembers) (w : Bool) (ts : String) (ec : Option Nat) :
    (variantBTail ms w ts ec).exit = 0 ∨ (variantBTail ms w ts ec).exit = 1 := by
  simp only [variantBTail]
  split
  · split
    · split
      · right; rfl
      · left; rfl
    · right; rfl
  · right; rfl

theorem variantB_exit (e : J) (w : Bool) (ts : String) :
    (variantB e w ts).exit = 0 ∨ (variantB e w ts).exit = 1 := by
  cases e with
  | obj ms =>
    simp only [variantB]
    split
    · left; rfl
    · split
      · split
        · exact variantBTail_exit _ _ _ _
        · right; rfl
      · exact variantBTail_exit _ _ _ _
  | null => right; rfl
  | bool b => right; rfl
  | num n => right; rfl
  | str s => right; rfl
  | arr xs => right; rfl

theorem emitC_exit (w : Bool) (line : String) :
    (emitC w line).exit = 0 ∨ (emitC w line).exit = 1 := by
  cases w
  · right; rfl
  · left; rfl

theorem variantC_exit (e : J) (w : Bool) (ts : String) :
    (variantC e w ts).exit = 0 ∨ (variantC e w ts).exit = 1 := by
  cases e with
  | obj ms =>
    simp only [variantC]
    split_ifs <;> try exact emitC_exit _ _
    split
    · right; rfl
    · exact emitC_exit _ _
  | null => right; rfl
  | bool b => right; rfl
  | num n => right; rfl
  | str s => right; rfl
  | arr xs => right; rfl

theorem variantA_exit_typed (ms : JMembers) (w : Bool) (ts : String)
    (h1 : tiOk ms) (h2 : cmdOk ms) :
    (variantA (J.obj ms) w ts).exit =
      if isStrVal (mfindD ms "tool_name" J.null) "Bash" && !w then 1 else 0 := by
  cases hb : isStrVal (mfindD ms "tool_name" J.null) "Bash"
  · simp [variantA, hb]
  · simp only [variantA, hb, Bool.true_and]
    cases w
    · simp
    · rcases h1 with hti | ⟨t, hti⟩
      · simp [mfindD, hti, pyGetD, pySlice, mfind]
      · rcases h2 t hti with hc | ⟨s, hc⟩
        · simp [mfindD, hti, pyGetD, hc, pySlice]
        · simp [mfindD, hti, pyGetD, hc, pySlice]

theorem variantBTail_typed (ms t : JMembers) (w : Bool) (ts : String) (ec : Option Nat)
    (h2 : mfindD ms "tool_input" (J.obj .nil) = J.obj t)
    (hc : mfind t "command" = none ∨ ∃ s, mfind t "command" = some (J.str s)) :
    (variantBTail ms w ts ec).exit = (if !w then 1 else 0) ∧
    (w = true → (variantBTail ms w ts ec).log = [J.obj (recordB ms t ts ec)]) := by
  simp only [variantBTail, h2]
  cases w
  · simp
  · rcases hc with hcc | ⟨s, hcc⟩
    · simp [mfindD, hcc, pySlice]
    · simp [mfindD, hcc, pySlice]

theorem variantBTail_log (ms t : JMembers) (ts : String) (ec : Option Nat)
    (h2 : mfindD ms "tool_input" (J.obj .nil) = J.obj t) :
    (variantBTail ms true ts ec).log = [J.obj (recordB ms t ts ec)] := by
  simp only [variantBTail, h2]
  rcases hps : pySlice (mfindD t "command" (J.str "N/A")) 40 with _ | cv <;> simp [hps]

/-- Which branch of variant B runs once the Bash filter passed, for
type-conforming `error` fields. -/
theorem variantB_reach (ms : JMembers) (w : Bool) (ts : String)
    (hb : isStrVal (mfindD ms "tool_name" J.null) "Bash" = true)
    (he : errOk ms) :
    ∃ ec, variantB (J.obj ms) w ts = variantBTail ms w ts ec ∧
      (mfind ms "error" = none → ec = none) := by
  have hb2 : isStrVal ((mfind ms "tool_name").getD J.null) "Bash" = true := by
    simpa [mfindD] using hb
  rcases he with h | ⟨s, h⟩
  · refine ⟨none, ?_, fun _ => rfl⟩
    simp [variantB, hb2, mfindD, h, pyTruthy]
  · by_cases hs : s = ""
    · subst hs
      refine ⟨none, ?_, fun hn => by rw [h] at hn⟩
      simp [variantB, hb2, mfindD, h, pyTruthy]
    · refine ⟨extractExitCode s, ?_, fun hn => by rw [h] at hn; exact Option.noConfusion hn⟩
      simp [variantB, hb2, mfindD, h, pyTruthy, hs]

/-- Navigation to variant C's `UserPromptSubmit` branch. -/
theorem variantC_prompt (ms : JMembers) (w : Bool) (ts : String)
    (h : mfindD ms "hook_event_name" (J.str "") = J.str "UserPromptSubmit") :
    variantC (J.obj ms) w ts =
      (if pyTruthy (mfindD ms "prompt" (J.str "")) then
        match pySlice (mfindD ms "prompt" (J.str "")) 100 with
        | .error _ => ⟨[], [], ["TypeError"], 1⟩
        | .ok sv => emitC w ("[" ++ ts ++ "] PROMPT: " ++ pyToStr sv ++ "\n")
      else emitC w ("[" ++ ts ++ "] PROMPT: N/A\n")) := by
  simp only [variantC, h,
    show isStrVal (J.str "UserPromptSubmit") "PreToolUse" = false from rfl,
    show isStrVal (J.str "UserPromptSubmit") "PostToolUse" = false from rfl,
    show isStrVal (J.str "UserPromptSubmit") "SubagentStop" = false from rfl,
    show isStrVal (J.str "UserPromptSubmit") "Stop" = false from rfl,
    show isStrVal (J.str "UserPromptSubmit") "UserPromptSubmit" = true from rfl,
    Bool.false_eq_true, if_false, if_true]

/-- Navigation to variant C's fallback `UNKNOWN` branch. -/
theorem variantC_unknown (ms : JMembers) (w : Bool) (ts : String)
    (h1 : isStrVal (mfindD ms "hook_event_name" (J.str "")) "PreToolUse" = false)
    (h2 : isStrVal (mfindD ms "hook_event_name" (J.str "")) "PostToolUse" = false)
    (h3 : isStrVal (mfindD ms "hook_event_name" (J.str "")) "SubagentStop" = false)
    (h4 : isStrVal (mfindD ms "hook_event_name" (J.str "")) "Stop" = false)
    (h5 : isStrVal (mfindD ms "hook_event_name" (J.str "")) "UserPromptSubmit" = false)
    (h6 : isStrVal (mfindD ms "hook_event_name" (J.str "")) "SessionStart" = false)
    (h7 : isStrVal (mfindD ms "hook_event_name" (J.str "")) "Notification" = false) :
    variantC (J.obj ms) w ts =
      emitC w ("[" ++ ts ++ "] UNKNOWN: " ++ dumps (J.obj ms) ++ "\n") := by
  simp only [variantC, h1, h2, h3, h4, h5, h6, h7, Bool.false_eq_true, if_false]

theorem emitC_exit_eq (w : Bool) (line : String) :
    (emitC w line).exit = if !w then 1 else 0 := by
  cases w <;> rfl

/-- On an event with a type-conforming prompt, every run of variant C ends
in a plain append attempt of one line. -/
theorem variantC_total (ms : JMembers) (w : Bool) (ts : String) (hp : promptOk ms) :
    ∃ line, variantC (J.obj ms) w ts = emitC w line := by
  rcases hp with h | ⟨s, h⟩
  · simp only [variantC, mfindD, h, Option.getD, pyTruthy]
    split_ifs <;> exact ⟨_, rfl⟩
  · by_cases hs : s = ""
    · subst hs
      simp only [variantC, mfindD, h, Option.getD, pyTruthy]
      split_ifs <;> exact ⟨_, rfl⟩
    · simp only [variantC, mfindD, h, Option.getD, pyTruthy, decide_eq_true_eq, hs,
        not_false_eq_true, if_true, pySlice]
      split_ifs <;> exact ⟨_, rfl⟩

/-- Exit status of variant C for type-conforming prompts: only the write
outcome matters, every branch appends. -/
theorem variantC_exit_typed (ms : JMembers) (w : Bool) (ts : String)
    (hp : promptOk ms) :
    (variantC (J.obj ms) w ts).exit = if !w then 1 else 0 := by
  obtain ⟨line, hl⟩ := variantC_total ms w ts hp
  rw [hl, emitC_exit_eq]

/-- Every branch of variant C appends exactly one line on a successful
write, for type-conforming prompts. -/
theorem variantC_one_line (ms : JMembers) (ts : String) (hp : promptOk ms) :
    (variantC (J.obj ms) true ts).log.length = 1 := by
  obtain ⟨line, hl⟩ := variantC_total ms true ts hp
  rw [hl]
  rfl

/-! ## The claims -/

/-- C1, counterexample to the claim as stated: variants A and B do not have
the environment-variable bridge; with empty standard input their
`json.loads` fails and the process exits with status 1 (so an invocation of
"every one of the three handlers" with empty stdin does fail). -/
theorem c1_empty_stdin_fails_ab :
    runA "" true "2024-01-01T00:00:00" = ⟨[], [], ["Error: Invalid JSON input"], 1⟩ ∧
    runB "" true "2024-01-01T00:00:00" = ⟨[], [], ["Error: Invalid JSON input"], 1⟩ :=
  ⟨rfl, rfl⟩

/-- C1 (amended): only handler variant C reads the environment-variable
bridge.  On empty standard input, variant C synthesizes the Event from
`ASP_TOOL_NAME`, `ASP_TOOL_ARGS` and `ASP_TOOL_RESULT` (the latter two
defaulting to the empty JSON object), tags it with `source = "pi"`, and
proceeds through the normal classify/format/append pipeline; variants A and
B exit with status 1 on empty standard input. -/
theorem c1_env_bridge_only_variant_c (env : EnvC) (w : Bool) (ts : String) (a r : J)
    (h1 : jparse (env.toolArgs.getD "\x7b\x7d") = some a)
    (h2 : jparse (env.toolResult.getD "\x7b\x7d") = some r) :
    runC "" env w ts =
      variantC (J.obj (.cons "tool_name" (optStrJ env.toolName)
        (.cons "tool_args" a
          (.cons "tool_result" r
            (.cons "source" (J.str "pi") .nil))))) w ts ∧
    (runA "" w ts).exit = 1 ∧ (runB "" w ts).exit = 1 := by
  refine ⟨?_, rfl, rfl⟩
  show (match envEvent env with
        | none => (⟨[], [], ["JSONDecodeError"], 1⟩ : HookOut String)
        | some e => variantC e w ts) = _
  simp only [envEvent, h1, h2]

/-- C1 witness: with no `ASP_*` variables set, both JSON defaults parse to
the empty object and variant C runs on the synthesized `source = "pi"`
event, while variants A and B exit 1. -/
theorem c1_env_bridge_only_variant_c_witness :
    runC "" ⟨none, none, none⟩ true "T" =
      variantC (J.obj (.cons "tool_name" J.null
        (.cons "tool_args" (J.obj .nil)
          (.cons "tool_result" (J.obj .nil)
            (.cons "source" (J.str "pi") .nil))))) true "T" ∧
    (runA "" true "T").exit = 1 ∧ (runB "" true "T").exit = 1 :=
  c1_env_bridge_only_variant_c ⟨none, none, none⟩ true "T" (J.obj .nil) (J.obj .nil) rfl rfl

/-- C2: for every well-formed Event whose `tool_name` is absent or differs
from "Bash", variants A and B append nothing, print nothing, report no
error, and exit with status 0. -/
theorem c2_non_bash_skip (ms : JMembers) (w : Bool) (ts : String)
    (h : mfindD ms "tool_name" J.null ≠ J.str "Bash") :
    variantA (J.obj ms) w ts = ⟨[], [], [], 0⟩ ∧
    variantB (J.obj ms) w ts = ⟨[], [], [], 0⟩ := by
  have hb := isStrVal_of_ne "Bash" h
  constructor
  · simp [variantA, hb]
  · simp [variantB, hb]

/-- C2 witness: the Edit-tool event of concrete scenario 2. -/
theorem c2_non_bash_skip_witness :
    variantA (J.obj (.cons "tool_name" (J.str "Edit") .nil)) true "T" = ⟨[], [], [], 0⟩ ∧
    variantB (J.obj (.cons "tool_name" (J.str "Edit") .nil)) true "T" = ⟨[], [], [], 0⟩ :=
  c2_non_bash_skip _ true "T"
    (by intro h; injection h with h2; exact absurd h2 (by decide))

/-- C3, counterexample to the claim as stated: an input that parses as JSON
and whose record is appended successfully can still exit 1.  Here
`tool_input` is a string, so variant A's console-confirmation lookup raises
`AttributeError` inside the `try` block after the write already happened;
the handler reports it as a write error and exits 1 although the log grew
by one record and the write did not fail. -/
theorem c3_exit_one_after_successful_append :
    jparse "\x7b\"tool_name\": \"Bash\", \"tool_input\": \"x\"\x7d" =
      some (J.obj (.cons "tool_name" (J.str "Bash")
        (.cons "tool_input" (J.str "x") .nil))) ∧
    runA "\x7b\"tool_name\": \"Bash\", \"tool_input\": \"x\"\x7d" true "T" =
      ⟨[J.obj (.cons "timestamp" (J.str "T")
          (.cons "raw_hook_payload"
            (J.obj (.cons "tool_name" (J.str "Bash")
              (.cons "tool_input" (J.str "x") .nil))) .nil))],
        [], ["Error writing to log"], 1⟩ :=
  ⟨rfl, rfl⟩

/-- C3 (amended): the exit status of every handler is always 0 or 1 — 0 on
a successful append and on a deliberate no-op skip, 1 on an input-parse
failure and when a non-skipped invocation's write fails.  In addition,
fields with unexpected types can raise and exit 1 (in variant A even after
a successful append); for events whose exercised fields have the types the
interface declares, status 1 occurs exactly on parse failure or on write
failure of a non-skipped invocation. -/
theorem c3_exit_statuses (stdin : String) (env : EnvC) (w : Bool) (ts : String)
    (ms : JMembers) :
    ((runA stdin w ts).exit = 0 ∨ (runA stdin w ts).exit = 1) ∧
    ((runB stdin w ts).exit = 0 ∨ (runB stdin w ts).exit = 1) ∧
    ((runC stdin env w ts).exit = 0 ∨ (runC stdin env w ts).exit = 1) ∧
    (jparse stdin = none →
      runA stdin w ts = ⟨[], [], ["Error: Invalid JSON input"], 1⟩ ∧
      runB stdin w ts = ⟨[], [], ["Error: Invalid JSON input"], 1⟩) ∧
    (tiOk ms → cmdOk ms →
      (variantA (J.obj ms) w ts).exit =
        if isStrVal (mfindD ms "tool_name" J.null) "Bash" && !w then 1 else 0) ∧
    (tiOk ms → cmdOk ms → errOk ms →
      (variantB (J.obj ms) w ts).exit =
        if isStrVal (mfindD ms "tool_name" J.null) "Bash" && !w then 1 else 0) ∧
    (promptOk ms → (variantC (J.obj ms) w ts).exit = if !w then 1 else 0) := by
  refine ⟨?_, ?_, ?_, ?_, ?_, ?_, ?_⟩
  · cases hj : jparse stdin with
    | none => right; simp [runA, hj]
    | some e => simp only [runA, hj]; exact variantA_exit e w ts
  · cases hj : jparse stdin with
    | none => right; simp [runB, hj]
    | some e => simp only [runB, hj]; exact variantB_exit e w ts
  · by_cases hstrip : (pyStripData stdin.data).isEmpty = true
    · simp only [runC, hstrip, if_true]
      cases henv : envEvent env with
      | none => right; rfl
      | some e => exact variantC_exit e w ts
    · simp only [runC, hstrip, Bool.false_eq_true, if_false]
      cases hj : jparse stdin with
      | none => right; rfl
      | some e => exact variantC_exit e w ts
  · intro hj
    constructor <;> simp [runA, runB, hj]
  · exact variantA_exit_typed ms w ts
  · intro h1 h2 h3
    cases hb : isStrVal (mfindD ms "tool_name" J.null) "Bash"
    · simp [variantB, hb]
    · obtain ⟨ec, hre, -⟩ := variantB_reach ms w ts hb h3
      rw [hre]
      rcases h1 with hti | ⟨t, hti⟩
      · have h2' : mfindD ms "tool_input" (J.obj .nil) = J.obj .nil := by
          simp [mfindD, hti]
        obtain ⟨hexit, -⟩ := variantBTail_typed ms .nil w ts ec h2' (Or.inl rfl)
        rw [hexit]
        simp
      · have h2' : mfindD ms "tool_input" (J.obj .nil) = J.obj t := by
          simp [mfindD, hti]
        obtain ⟨hexit, -⟩ := variantBTail_typed ms t w ts ec h2' (h2 t hti)
        rw [hexit]
        simp
  · exact variantC_exit_typed ms w ts

/-- C4: the extracted exit code is `some n` exactly when the error message
starts with "Exit code " followed by a nonempty run of digits whose value is
`n` (the run being maximal); on every other string — the empty string
included — the extraction returns the absent marker (it is total, never 0
for a non-match and never an exception). -/
theorem c4_exit_code_extraction (s : String) :
    (∀ n, extractExitCode s = some n ↔
      ∃ ds rest, s.data = ['E', 'x', 'i', 't', ' ', 'c', 'o', 'd', 'e', ' '] ++ ds ++ rest ∧
        ds ≠ [] ∧ (∀ c ∈ ds, isDigitChar c = true) ∧
        (match rest with | [] => True | c :: _ => isDigitChar c = false) ∧
        valOf ds = n) ∧
    ((¬ ∃ ds rest,
        s.data = ['E', 'x', 'i', 't', ' ', 'c', 'o', 'd', 'e', ' '] ++ ds ++ rest ∧
        ds ≠ [] ∧ (∀ c ∈ ds, isDigitChar c = true) ∧
        (match rest with | [] => True | c :: _ => isDigitChar c = false)) →
      extractExitCode s = none) := by
  have hiff : ∀ n, extractExitCode s = some n ↔
      ∃ ds rest, s.data = ['E', 'x', 'i', 't', ' ', 'c', 'o', 'd', 'e', ' '] ++ ds ++ rest ∧
        ds ≠ [] ∧ (∀ c ∈ ds, isDigitChar c = true) ∧
        (match rest with | [] => True | c :: _ => isDigitChar c = false) ∧
        valOf ds = n := by
    intro n
    constructor
    · intro hx
      by_cases hp :
          (['E', 'x', 'i', 't', ' ', 'c', 'o', 'd', 'e', ' '] : List Char).isPrefixOf
            s.data = true
      · obtain ⟨t, ht⟩ := List.isPrefixOf_iff_prefix.mp hp
        have hdrop : s.data.drop 10 = t := by
          rw [← ht]
          exact List.drop_left ['E', 'x', 'i', 't', ' ', 'c', 'o', 'd', 'e', ' '] t
        simp only [extractExitCode, hp, if_true, hdrop] at hx
        rcases hsd : splitDigits t with ⟨d, r⟩
        rw [hsd] at hx
        obtain ⟨heq, hdig, hnd⟩ := splitDigits_inv t _ _ hsd
        cases d with
        | nil => exact absurd hx (by simp)
        | cons c ds2 =>
          simp only [Option.some.injEq] at hx
          refine ⟨c :: ds2, r, ?_, by simp, hdig, hnd, hx⟩
          rw [← ht, heq, List.append_assoc]
      · simp only [extractExitCode, hp, Bool.false_eq_true, if_false] at hx
        exact absurd hx (by simp)
    · rintro ⟨ds, rest, heq, hne, hdig, hnd, hval⟩
      have hp : (['E', 'x', 'i', 't', ' ', 'c', 'o', 'd', 'e', ' '] : List Char).isPrefixOf
          s.data = true := by
        refine List.isPrefixOf_iff_prefix.mpr ⟨ds ++ rest, ?_⟩
        rw [heq]
        exact (List.append_assoc _ _ _).symm
      have hdrop : s.data.drop 10 = ds ++ rest := by
        rw [heq, List.append_assoc]
        exact List.drop_left ['E', 'x', 'i', 't', ' ', 'c', 'o', 'd', 'e', ' '] (ds ++ rest)
      simp only [extractExitCode, hp, if_true, hdrop,
        splitDigits_spec ds rest hdig hnd]
      cases ds with
      | nil => exact absurd rfl hne
      | cons c ds2 => simp [hval]
  refine ⟨hiff, ?_⟩
  intro hno
  cases hx : extractExitCode s with
  | none => rfl
  | some n =>
    obtain ⟨ds, rest, h1, h2, h3, h4, -⟩ := (hiff n).mp hx
    exact absurd ⟨ds, rest, h1, h2, h3, h4⟩ hno

/-- C4 witness: concrete scenario 3's error message extracts exit code 127. -/
theorem c4_exit_code_extraction_witness :
    extractExitCode "Exit code 127: command not found" = some 127 :=
  ((c4_exit_code_extraction "Exit code 127: command not found").1 127).mpr
    ⟨['1', '2', '7'], [':', ' ', 'c', 'o', 'm', 'm', 'a', 'n', 'd', ' ', 'n', 'o',
        't', ' ', 'f', 'o', 'u', 'n', 'd'], by decide, by decide, by decide, by decide,
      by decide⟩

/-- C3 witness: a successful Bash append of variant A exits 0, matching the
amended status formula. -/
theorem c3_exit_statuses_witness :
    (variantA (J.obj (.cons "tool_name" (J.str "Bash") .nil)) true "T").exit =
      if isStrVal (mfindD (.cons "tool_name" (J.str "Bash") .nil) "tool_name" J.null)
          "Bash" && !true then 1 else 0 :=
  (c3_exit_statuses "x" ⟨none, none, none⟩ true "T"
      (.cons "tool_name" (J.str "Bash") .nil)).2.2.2.2.1
    (Or.inl rfl) (fun _ ht => Option.noConfusion ht)

/-- C5, counterexample to the claim as stated: an Event whose `prompt` is the
number 5 reaches variant C's `UserPromptSubmit` branch, where `prompt[:100]`
raises `TypeError`; no record is appended and the process exits 1, so not
every input Event produces a log record. -/
theorem c5_nonstring_prompt_drops_event :
    (variantC (J.obj (.cons "hook_event_name" (J.str "UserPromptSubmit")
        (.cons "prompt" (J.num 5) .nil))) true "T").log = [] ∧
    (variantC (J.obj (.cons "hook_event_name" (J.str "UserPromptSubmit")
        (.cons "prompt" (J.num 5) .nil))) true "T").exit = 1 :=
  ⟨rfl, rfl⟩

/-- C5 (amended): for every input Event whose `prompt` field — the only one
whose summarization can raise — is absent or a string, variant C appends
exactly one log record, whatever the value (or absence) of
`hook_event_name`; a value outside the recognized enumeration (absence
included) produces the generic UNKNOWN record embedding the full payload,
and variant C has no skip branch. -/
theorem c5_always_logs (ms : JMembers) (ts : String) (hp : promptOk ms) :
    (variantC (J.obj ms) true ts).log.length = 1 ∧
    (isStrVal (mfindD ms "hook_event_name" (J.str "")) "PreToolUse" = false →
     isStrVal (mfindD ms "hook_event_name" (J.str "")) "PostToolUse" = false →
     isStrVal (mfindD ms "hook_event_name" (J.str "")) "SubagentStop" = false →
     isStrVal (mfindD ms "hook_event_name" (J.str "")) "Stop" = false →
     isStrVal (mfindD ms "hook_event_name" (J.str "")) "UserPromptSubmit" = false →
     isStrVal (mfindD ms "hook_event_name" (J.str "")) "SessionStart" = false →
     isStrVal (mfindD ms "hook_event_name" (J.str "")) "Notification" = false →
     (variantC (J.obj ms) true ts).log =
       ["[" ++ ts ++ "] UNKNOWN: " ++ dumps (J.obj ms) ++ "\n"]) := by
  refine ⟨variantC_one_line ms ts hp, ?_⟩
  intro h1 h2 h3 h4 h5 h6 h7
  rw [variantC_unknown ms true ts h1 h2 h3 h4 h5 h6 h7]
  rfl

/-- C5 witness: an event with an unrecognized `hook_event_name` yields
exactly one UNKNOWN record. -/
theorem c5_always_logs_witness :
    (variantC (J.obj (.cons "hook_event_name" (J.str "BrandNewEvent") .nil))
      true "T").log.length = 1 ∧
    (variantC (J.obj (.cons "hook_event_name" (J.str "BrandNewEvent") .nil))
      true "T").log =
      ["[T] UNKNOWN: " ++
        dumps (J.obj (.cons "hook_event_name" (J.str "BrandNewEvent") .nil)) ++ "\n"] :=
  have h := c5_always_logs (.cons "hook_event_name" (J.str "BrandNewEvent") .nil) "T"
    (Or.inl rfl)
  ⟨h.1, h.2 rfl rfl rfl rfl rfl rfl rfl⟩

/-- C6: for every Event routed to variant C's POST_TOOL or SESSION_START
branch, the log record embeds `json.dumps` of the whole event, and
re-parsing that embedded JSON text yields exactly the original Event (the
serialize-then-parse round trip is the identity). -/
theorem c6_posttool_sessionstart_roundtrip (ms : JMembers) (ts : String) :
    (mfindD ms "hook_event_name" (J.str "") = J.str "PostToolUse" →
      (variantC (J.obj ms) true ts).log =
        ["[" ++ ts ++ "] POST_TOOL: " ++ dumps (J.obj ms) ++ "\n"] ∧
      jparse (dumps (J.obj ms)) = some (J.obj ms)) ∧
    (mfindD ms "hook_event_name" (J.str "") = J.str "SessionStart" →
      (variantC (J.obj ms) true ts).log =
        ["[" ++ ts ++ "] SESSION_START: " ++ dumps (J.obj ms) ++ "\n"] ∧
      jparse (dumps (J.obj ms)) = some (J.obj ms)) := by
  constructor
  · intro h
    refine ⟨?_, jparse_dumps _⟩
    simp only [variantC, h,
      show isStrVal (J.str "PostToolUse") "PreToolUse" = false from rfl,
      show isStrVal (J.str "PostToolUse") "PostToolUse" = true from rfl,
      Bool.false_eq_true, if_false, if_true, emitC]
  · intro h
    refine ⟨?_, jparse_dumps _⟩
    simp only [variantC, h,
      show isStrVal (J.str "SessionStart") "PreToolUse" = false from rfl,
      show isStrVal (J.str "SessionStart") "PostToolUse" = false from rfl,
      show isStrVal (J.str "SessionStart") "SubagentStop" = false from rfl,
      show isStrVal (J.str "SessionStart") "Stop" = false from rfl,
      show isStrVal (J.str "SessionStart") "UserPromptSubmit" = false from rfl,
      show isStrVal (J.str "SessionStart") "SessionStart" = true from rfl,
      Bool.false_eq_true, if_false, if_true, emitC]

/-- C6 witness: a concrete PostToolUse event round-trips through the logged
JSON text. -/
theorem c6_posttool_sessionstart_roundtrip_witness :
    (variantC (J.obj (.cons "hook_event_name" (J.str "PostToolUse")
        (.cons "tool_name" (J.str "Bash") .nil))) true "T").log =
      ["[T] POST_TOOL: " ++
        dumps (J.obj (.cons "hook_event_name" (J.str "PostToolUse")
          (.cons "tool_name" (J.str "Bash") .nil))) ++ "\n"] ∧
    jparse (dumps (J.obj (.cons "hook_event_name" (J.str "PostToolUse")
        (.cons "tool_name" (J.str "Bash") .nil)))) =
      some (J.obj (.cons "hook_event_name" (J.str "PostToolUse")
        (.cons "tool_name" (J.str "Bash") .nil))) :=
  (c6_posttool_sessionstart_roundtrip
    (.cons "hook_event_name" (J.str "PostToolUse")
      (.cons "tool_name" (J.str "Bash") .nil)) "T").1 rfl

/-- C7, counterexample to the claim as stated: the empty prompt is shorter
than 100 characters but is not logged in full — the PROMPT record carries
the literal summary "N/A" instead of the (empty) prompt. -/
theorem c7_empty_prompt_not_logged_in_full :
    (variantC (J.obj (.cons "hook_event_name" (J.str "UserPromptSubmit")
        (.cons "prompt" (J.str "") .nil))) true "T").log = ["[T] PROMPT: N/A\n"] ∧
    (variantC (J.obj (.cons "hook_event_name" (J.str "UserPromptSubmit")
        (.cons "prompt" (J.str "") .nil))) true "T").log ≠ ["[T] PROMPT: \n"] :=
  ⟨rfl, by decide⟩

/-- C7 (amended): for a UserPromptSubmit event with a string prompt, the
PROMPT record carries exactly the first 100 characters when the prompt has
at least 100 (no more, no fewer — a length-100 prefix of the prompt);
nonempty prompts shorter than 100 characters are logged in full; the empty
prompt is summarized as the literal "N/A". -/
theorem c7_prompt_truncation (ms : JMembers) (ts s : String)
    (h1 : mfindD ms "hook_event_name" (J.str "") = J.str "UserPromptSubmit")
    (h2 : mfindD ms "prompt" (J.str "") = J.str s) :
    (variantC (J.obj ms) true ts).log =
      ["[" ++ ts ++ "] PROMPT: " ++
        (if s = "" then "N/A" else String.mk (s.data.take 100)) ++ "\n"] ∧
    (s.data.length < 100 → String.mk (s.data.take 100) = s) ∧
    (100 ≤ s.data.length →
      (String.mk (s.data.take 100)).data.length = 100 ∧
      ∃ t, s.data = (String.mk (s.data.take 100)).data ++ t) := by
  refine ⟨?_, ?_, ?_⟩
  · rw [variantC_prompt ms true ts h1, h2]
    by_cases hs : s = ""
    · subst hs
      simp only [pyTruthy, decide_eq_true_eq, ne_eq, not_true_eq_false,
        Bool.false_eq_true, if_false, emitC, if_true]
      simp [String.append_assoc]
    · simp [pyTruthy, hs, pySlice, emitC, pyToStr]
  · intro hlen
    have ht : s.data.take 100 = s.data := List.take_of_length_le (by omega)
    rw [ht]
  · intro hlen
    refine ⟨?_, ⟨s.data.drop 100, ?_⟩⟩
    · show (s.data.take 100).length = 100
      rw [List.length_take]
      omega
    · show s.data = s.data.take 100 ++ s.data.drop 100
      exact (List.take_append_drop 100 s.data).symm

set_option maxRecDepth 4000 in
/-- C7 witness: concrete scenario 4 — a 150-character prompt is logged as
exactly its first 100 characters. -/
theorem c7_prompt_truncation_witness :
    (variantC (J.obj (.cons "hook_event_name" (J.str "UserPromptSubmit")
        (.cons "prompt" (J.str "xxxxxxxxxxxxxxxxxxxxxxxxxxxxxxxxxxxxxxxxxxxxxxxxxxxxxxxxxxxxxxxxxxxxxxxxxxxxxxxxxxxxxxxxxxxxxxxxxxxxxxxxxxxxxxxxxxxxxxxxxxxxxxxxxxxxxxxxxxxxxxxxxxxxxx") .nil))) true "T").log =
      ["[T] PROMPT: " ++
        (if ("xxxxxxxxxxxxxxxxxxxxxxxxxxxxxxxxxxxxxxxxxxxxxxxxxxxxxxxxxxxxxxxxxxxxxxxxxxxxxxxxxxxxxxxxxxxxxxxxxxxxxxxxxxxxxxxxxxxxxxxxxxxxxxxxxxxxxxxxxxxxxxxxxxxxxx" : String) = "" then "N/A"
         else String.mk (("xxxxxxxxxxxxxxxxxxxxxxxxxxxxxxxxxxxxxxxxxxxxxxxxxxxxxxxxxxxxxxxxxxxxxxxxxxxxxxxxxxxxxxxxxxxxxxxxxxxxxxxxxxxxxxxxxxxxxxxxxxxxxxxxxxxxxxxxxxxxxxxxxxxxxx" : String).data.take 100)) ++ "\n"] ∧
    (String.mk (("xxxxxxxxxxxxxxxxxxxxxxxxxxxxxxxxxxxxxxxxxxxxxxxxxxxxxxxxxxxxxxxxxxxxxxxxxxxxxxxxxxxxxxxxxxxxxxxxxxxxxxxxxxxxxxxxxxxxxxxxxxxxxxxxxxxxxxxxxxxxxxxxxxxxxx" : String).data.take 100)).data.length = 100 :=
  have h := c7_prompt_truncation
    (.cons "hook_event_name" (J.str "UserPromptSubmit")
      (.cons "prompt" (J.str "xxxxxxxxxxxxxxxxxxxxxxxxxxxxxxxxxxxxxxxxxxxxxxxxxxxxxxxxxxxxxxxxxxxxxxxxxxxxxxxxxxxxxxxxxxxxxxxxxxxxxxxxxxxxxxxxxxxxxxxxxxxxxxxxxxxxxxxxxxxxxxxxxxxxxx") .nil)) "T" "xxxxxxxxxxxxxxxxxxxxxxxxxxxxxxxxxxxxxxxxxxxxxxxxxxxxxxxxxxxxxxxxxxxxxxxxxxxxxxxxxxxxxxxxxxxxxxxxxxxxxxxxxxxxxxxxxxxxxxxxxxxxxxxxxxxxxxxxxxxxxxxxxxxxxx" rfl rfl
  ⟨h.1, (h.2.2 (by decide)).1⟩

/-- C8: for a Bash event of variant A whose command exceeds 40 characters,
the appended record keeps the whole payload (hence the untruncated command)
under `raw_hook_payload`, while the stdout confirmation shows only the
first 40 characters of the command followed by "..."; truncation applies
only to the console line, never to the persisted record. -/
theorem c8_truncation_console_only (ms t : JMembers) (c ts : String)
    (h1 : mfindD ms "tool_name" J.null = J.str "Bash")
    (h2 : mfindD ms "tool_input" (J.obj .nil) = J.obj t)
    (h3 : mfind t "command" = some (J.str c))
    (h4 : 40 < c.data.length) :
    variantA (J.obj ms) true ts =
      ⟨[J.obj (recordA ms ts)],
        ["[LOGGED ALL] " ++ String.mk (c.data.take 40) ++ "..."], [], 0⟩ ∧
    mfind (recordA ms ts) "raw_hook_payload" = some (J.obj ms) ∧
    (String.mk (c.data.take 40)).data.length = 40 ∧
    ∃ tl, c.data = (String.mk (c.data.take 40)).data ++ tl := by
  refine ⟨?_, rfl, ?_, ⟨c.data.drop 40, ?_⟩⟩
  · have hb : isStrVal (mfindD ms "tool_name" J.null) "Bash" = true := by
      rw [h1]; exact isStrVal_self _
    simp only [variantA, hb, Bool.true_eq_false, if_false, if_true, h2, pyGetD]
    simp [mfindD, h3, pySlice, pyToStr]
  · show (c.data.take 40).length = 40
    rw [List.length_take]
    omega
  · show c.data = c.data.take 40 ++ c.data.drop 40
    exact (List.take_append_drop 40 c.data).symm

/-- C8 witness: concrete scenario 1's long `ls` command. -/
theorem c8_truncation_console_only_witness :
    variantA (J.obj (.cons "tool_name" (J.str "Bash")
        (.cons "tool_input" (J.obj (.cons "command"
          (J.str "ls -la /tmp/some/very/long/path/exceeding/forty/chars") .nil)) .nil)))
      true "T" =
      ⟨[J.obj (recordA (.cons "tool_name" (J.str "Bash")
          (.cons "tool_input" (J.obj (.cons "command"
            (J.str "ls -la /tmp/some/very/long/path/exceeding/forty/chars") .nil)) .nil)) "T")],
        ["[LOGGED ALL] " ++
          String.mk (("ls -la /tmp/some/very/long/path/exceeding/forty/chars" :
            String).data.take 40) ++ "..."], [], 0⟩ ∧
    (String.mk (("ls -la /tmp/some/very/long/path/exceeding/forty/chars" :
      String).data.take 40)).data.length = 40 :=
  have h := c8_truncation_console_only
    (.cons "tool_name" (J.str "Bash")
      (.cons "tool_input" (J.obj (.cons "command"
        (J.str "ls -la /tmp/some/very/long/path/exceeding/forty/chars") .nil)) .nil))
    (.cons "command" (J.str "ls -la /tmp/some/very/long/path/exceeding/forty/chars") .nil)
    "ls -la /tmp/some/very/long/path/exceeding/forty/chars" "T" rfl rfl rfl (by decide)
  ⟨h.1, h.2.2.1⟩

/-- C9: a UserPromptSubmit event whose prompt is absent or the empty string
is logged with the literal summary "N/A", not with an empty summary. -/
theorem c9_empty_prompt_na (ms : JMembers) (ts : String)
    (h1 : mfindD ms "hook_event_name" (J.str "") = J.str "UserPromptSubmit")
    (h2 : mfind ms "prompt" = none ∨ mfind ms "prompt" = some (J.str "")) :
    (variantC (J.obj ms) true ts).log = ["[" ++ ts ++ "] PROMPT: N/A\n"] := by
  rw [variantC_prompt ms true ts h1]
  rcases h2 with h | h <;> simp [mfindD, h, pyTruthy, emitC]

/-- C9 witness: an event with no prompt key at all. -/
theorem c9_empty_prompt_na_witness :
    (variantC (J.obj (.cons "hook_event_name" (J.str "UserPromptSubmit") .nil))
      true "T").log = ["[T] PROMPT: N/A\n"] :=
  c9_empty_prompt_na (.cons "hook_event_name" (J.str "UserPromptSubmit") .nil) "T"
    rfl (Or.inl rfl)

/-- C10: for Bash events with a mapping `tool_input` and a string-or-absent
`error`, variant B's field extraction is total (no raise on missing keys):
the appended record has exactly the nine fields timestamp, exit_code,
command, description, error_message, is_interrupt, session_id, cwd and
tool_use_id, with absent command/description/session_id/cwd/tool_use_id
recorded as null, an absent error as the empty string, and an absent
is_interrupt as false. -/
theorem c10_variant_b_total_extraction (ms t : JMembers) (ts : String)
    (h1 : mfindD ms "tool_name" J.null = J.str "Bash")
    (h2 : mfindD ms "tool_input" (J.obj .nil) = J.obj t)
    (h3 : errOk ms) :
    ∃ ec : Option Nat,
      (variantB (J.obj ms) true ts).log = [J.obj (recordB ms t ts ec)] ∧
      keysOf (recordB ms t ts ec) =
        ["timestamp", "exit_code", "command", "description", "error_message",
          "is_interrupt", "session_id", "cwd", "tool_use_id"] ∧
      (mfind t "command" = none →
        mfind (recordB ms t ts ec) "command" = some J.null) ∧
      (mfind t "description" = none →
        mfind (recordB ms t ts ec) "description" = some J.null) ∧
      (mfind ms "session_id" = none →
        mfind (recordB ms t ts ec) "session_id" = some J.null) ∧
      (mfind ms "cwd" = none →
        mfind (recordB ms t ts ec) "cwd" = some J.null) ∧
      (mfind ms "tool_use_id" = none →
        mfind (recordB ms t ts ec) "tool_use_id" = some J.null) ∧
      (mfind ms "error" = none →
        mfind (recordB ms t ts ec) "error_message" = some (J.str "")) ∧
      (mfind ms "is_interrupt" = none →
        mfind (recordB ms t ts ec) "is_interrupt" = some (J.bool false)) := by
  have hb : isStrVal (mfindD ms "tool_name" J.null) "Bash" = true := by
    rw [h1]; exact isStrVal_self _
  obtain ⟨ec, hre, -⟩ := variantB_reach ms true ts hb h3
  refine ⟨ec, ?_, rfl, ?_, ?_, ?_, ?_, ?_, ?_, ?_⟩
  · rw [hre]
    exact variantBTail_log ms t ts ec h2
  · intro h
    simp [recordB, mfind, mfindD, h]
  · intro h
    simp [recordB, mfind, mfindD, h]
  · intro h
    simp [recordB, mfind, mfindD, h]
  · intro h
    simp [recordB, mfind, mfindD, h]
  · intro h
    simp [recordB, mfind, mfindD, h]
  · intro h
    simp [recordB, mfind, mfindD, h]
  · intro h
    simp [recordB, mfind, mfindD, h]

/-- C10 witness: a bare Bash event (no tool_input, no error, nothing else)
is logged with the nine fields and the defaulted values. -/
theorem c10_variant_b_total_extraction_witness :
    ∃ ec : Option Nat,
      (variantB (J.obj (.cons "tool_name" (J.str "Bash") .nil)) true "T").log =
        [J.obj (recordB (.cons "tool_name" (J.str "Bash") .nil) .nil "T" ec)] ∧
      keysOf (recordB (.cons "tool_name" (J.str "Bash") .nil) .nil "T" ec) =
        ["timestamp", "exit_code", "command", "description", "error_message",
          "is_interrupt", "session_id", "cwd", "tool_use_id"] ∧
      mfind (recordB (.cons "tool_name" (J.str "Bash") .nil) .nil "T" ec) "command" =
        some J.null := by
  obtain ⟨ec, ha, hk, hc, -⟩ := c10_variant_b_total_extraction
    (.cons "tool_name" (J.str "Bash") .nil) .nil "T" rfl rfl (Or.inl rfl)
  exact ⟨ec, ha, hk, hc rfl⟩
